import Mathlib

/-!
Verification of the Smart-EV-grid-management schedule engine.

The repository has two implementations of the same demand-response engine:
the modular one (`logic.py`, driven by `main.py` through the class-based UI)
and the monolithic v1.0 script embedded at the bottom of `ui_tk.py`, which
additionally carries the four grid-search optimizers.  Both are embedded
below: namespace `FlexiCity` holds the modular engine, namespace
`FlexiCity.V1` the monolithic one.

Conventions of the shallow embedding:
* Python floats are modelled as exact rationals (ℚ); every constant of the
  source (prices, CO₂ intensities, scaling factors) is written as an integer
  fraction with the same value (8.70 becomes 870/100).
* A 24-hour load curve is a function `Nat → ℚ`; the Python in-place list
  update `load[h] += x` becomes the pointwise update `addAt`.
* Hour fields are ℕ: the data model of `database.py` declares
  `start_hour: 0..23`, `end_hour: 0..24`, `duration_h ≥ 1`.
* Python's `min(iterable, key=...)` keeps the first minimum (it replaces the
  running best only on a strict `<`); `pyMinGo` reproduces that left fold.
* Python's `list.remove` drops the first occurrence, i.e. `List.erase`.
-/

namespace FlexiCity

/-- A 24-hour load curve (`before_load` / `after_load` in the source). -/
abbrev Load := Nat → ℚ

/-- `database.py` `PRICE_PER_HOUR`: hourly prices in cents/kWh, hours 00-23. -/
def PRICE_PER_HOUR : List ℚ :=
  [870/100, 848/100, 852/100, 861/100, 869/100, 869/100,
   956/100, 1158/100, 1272/100, 1307/100, 1565/100, 1765/100,
   1624/100, 1555/100, 1512/100, 1664/100, 1860/100, 2153/100,
   2268/100, 2029/100, 1709/100, 1409/100, 1281/100, 1163/100]

/-- `PRICE_PER_HOUR[h]` as a function (all source accesses have `h < 24`). -/
def price (h : Nat) : ℚ := PRICE_PER_HOUR.getD h 0

/-- `database.py` `CO2_PER_HOUR_BASELINE` (tCO₂/MWh). -/
def CO2_PER_HOUR_BASELINE : List ℚ :=
  [45/1000, 42/1000, 40/1000, 38/1000, 35/1000, 32/1000,
   30/1000, 35/1000, 50/1000, 65/1000, 70/1000, 75/1000,
   80/1000, 85/1000, 90/1000, 95/1000, 100/1000, 110/1000,
   105/1000, 95/1000, 85/1000, 75/1000, 60/1000, 50/1000]

/-- `database.py` `Asset`.  `variable` is a Lean keyword, hence `var_flag`. -/
structure Asset where
  owner : String
  appliance : String
  power_kw : ℚ
  duration_h : Nat
  start_hour : Nat
  end_hour : Nat
  var_flag : Bool
  enabled : Bool := true
  before_hours : List Nat := []
  after_hours : List Nat := []
deriving Repr, DecidableEq, Inhabited

/-- `database.py` `Scenario`; `scaling_factors` is the dict as an assoc list. -/
structure Scenario where
  name : String
  base_load : Load
  co2_per_hour : Load
  scaling_factors : List (String × ℚ)

/-- `database.py` `generate_baseline_base_load`. -/
def generate_baseline_base_load : Load := fun h =>
  40 + (if 7 ≤ h ∧ h ≤ 9 then 25 else 0) + (if 17 ≤ h ∧ h ≤ 21 then 35 else 0)

/-- `logic.py` `Simulator.get_window_hours`: `[start, end)`, wrapping past
midnight when `start < end` fails (`range(start, 24) + range(0, end)`). -/
def get_window_hours (start stop : Nat) : List Nat :=
  if start < stop then List.range' start (stop - start)
  else List.range' start (24 - start) ++ List.range stop

/-- Single-index load update: Python `load[h0] += x`. -/
def addAt (l : Load) (h0 : Nat) (x : ℚ) : Load :=
  fun h => if h = h0 then l h + x else l h

/-- `for h in hs: load[h] += x`. -/
def addHours (l : Load) (hs : List Nat) (x : ℚ) : Load :=
  hs.foldl (fun acc h => addAt acc h x) l

/-- One iteration of the `_build_before_curve` placement loop: reset
`before_hours`, skip disabled assets and empty windows, otherwise place the
first `min(duration_h, len(window))` window hours at full power. -/
def beforeStep (st : List Asset × Load) (a : Asset) : List Asset × Load :=
  if ¬ a.enabled then (st.1 ++ [{ a with before_hours := [] }], st.2)
  else
    let window := get_window_hours a.start_hour a.end_hour
    if window = [] then (st.1 ++ [{ a with before_hours := [] }], st.2)
    else
      let hours := window.take (min a.duration_h window.length)
      (st.1 ++ [{ a with before_hours := hours }], addHours st.2 hours a.power_kw)

/-- `logic.py` `Simulator._build_before_curve` (placement part): the naive
before-curve and the assets with their `before_hours` filled in. -/
def build_before_curve (assets : List Asset) (base : Load) : List Asset × Load :=
  assets.foldl beforeStep ([], base)

/-- `logic.py` cost-before loop: `cost_before_cents`. -/
def cost_before_cents (assets : List Asset) : ℚ :=
  assets.foldl
    (fun c a =>
      if a.enabled then a.before_hours.foldl (fun s h => s + a.power_kw * price h) c
      else c)
    0

/-- Python `min` of a nonempty ℚ list (`min(loads)`). -/
def listMin : List ℚ → ℚ
  | [] => 0
  | x :: t => t.foldl min x

/-- Python `max` of a nonempty ℚ list (`max(loads)`). -/
def listMax : List ℚ → ℚ
  | [] => 0
  | x :: t => t.foldl max x

/-- `logic.py` local `norm(val, lo, hi)`. -/
def norm (val lo hi : ℚ) : ℚ :=
  if hi > lo then (val - lo) / (hi - lo) else 0

/-- Left-to-right scan of Python's `min(iterable, key=...)`: the running best
is replaced only on a strict `<`, so the first minimum wins.  Polymorphic
because the source uses the same pattern on hours, on candidate blocks and on
grid points. -/
def pyMinGo {α : Type} (key : α → ℚ) (best : α) : List α → α
  | [] => best
  | x :: xs => pyMinGo key (if key x < key best then x else best) xs

/-- Python `min(l, key=...)` on a nonempty list (`default` is never hit by
the source, which only calls `min` on nonempty pools). -/
def pyMin {α : Type} [Inhabited α] (key : α → ℚ) (l : List α) : α :=
  match l with
  | [] => default
  | x :: xs => pyMinGo key x xs

/-- The variable-asset greedy selection of `_build_after_curve`: repeat
`duration` times — break on an empty pool, otherwise append
`min(available, key=scores)` and `available.remove` it. -/
def greedyPick (key : Nat → ℚ) : Nat → List Nat → List Nat
  | 0, _ => []
  | _ + 1, [] => []
  | n + 1, x :: xs =>
      let best := pyMin key (x :: xs)
      best :: greedyPick key n ((x :: xs).erase best)

/-- The candidate blocks `window[i:i+duration]` of the fixed-asset branch. -/
def blockList (window : List Nat) (d : Nat) : List (List Nat) :=
  (List.range (window.length - d + 1)).map (fun i => (window.drop i).take d)

/-- Python `min`-style fold over candidate blocks (first strict minimum of
the summed scores wins); `none` when no block was scanned (`best_block` left
`None`). -/
def pyMinBlock (score : List Nat → ℚ) : List (List Nat) → Option (List Nat)
  | [] => none
  | b :: t => some (pyMinGo score b t)

/-- The fixed-asset branch of `_build_after_curve`: best contiguous block,
including the final `if best_block:` (an empty block is falsy in Python). -/
def bestBlockChoice (score : Nat → ℚ) (window : List Nat) (d : Nat) : List Nat :=
  let d := if d > window.length then window.length else d
  match pyMinBlock (fun b => (b.map score).sum) (blockList window d) with
  | none => []
  | some bb => if bb = [] then [] else bb

/-- The per-hour score of `_build_after_curve`:
`w_grid * norm(after_load[h], Lmin, Lmax) + w_price * norm(price[h], Pmin, Pmax)`
with the min/max taken over the window at the moment of scoring. -/
def assetScore (w_price : ℚ) (load1 : Load) (window : List Nat) : Nat → ℚ :=
  fun h =>
    (1 - w_price) * norm (load1 h) (listMin (window.map load1)) (listMax (window.map load1))
      + w_price * norm (price h) (listMin (window.map price)) (listMax (window.map price))

/-- State threaded through the `_build_after_curve` placement loop. -/
structure AfterState where
  assets : List Asset
  load : Load
  cost : ℚ

/-- One iteration of the `_build_after_curve` placement loop of `logic.py`:
skip non-positive power or empty `before_hours`; copy `before_hours` on an
empty window; otherwise remove the participating power from the old hours,
score the window, choose greedily (variable) or as the best contiguous block
(fixed), add the participating power back, and accumulate the after cost. -/
def afterStep (p_flex w_price : ℚ) (st : AfterState) (a : Asset) : AfterState :=
  if a.power_kw ≤ 0 ∨ a.before_hours = [] then
    { st with assets := st.assets ++ [a] }
  else
    let participate := a.power_kw * p_flex
    let remain := a.power_kw * (1 - p_flex)
    let window := get_window_hours a.start_hour a.end_hour
    if window = [] then
      { st with assets := st.assets ++ [{ a with after_hours := a.before_hours }] }
    else
      let duration := min a.duration_h window.length
      let load1 := addHours st.load a.before_hours (-participate)
      let score := assetScore w_price load1 window
      let chosen :=
        if a.var_flag then greedyPick score duration window
        else bestBlockChoice score window duration
      let load2 := addHours load1 chosen participate
      let cost2 :=
        chosen.foldl (fun s h => s + participate * price h)
          (a.before_hours.foldl (fun s h => s + remain * price h) st.cost)
      { assets := st.assets ++ [{ a with after_hours := chosen }],
        load := load2, cost := cost2 }

/-- `logic.py` `Simulator._build_after_curve`: clear `after_hours`, keep the
enabled assets sorted by descending power (Python's stable sort with key
`-power_kw`), and run the placement loop from a copy of the before-curve. -/
def build_after_curve (assets : List Asset) (before_load : Load)
    (p_flex w_price : ℚ) : AfterState :=
  let cleared := assets.map (fun a => { a with after_hours := [] })
  let enabled_sorted :=
    (cleared.filter (fun a => a.enabled)).mergeSort
      (fun x y => decide (y.power_kw ≤ x.power_kw))
  enabled_sorted.foldl (afterStep p_flex w_price)
    { assets := [], load := before_load, cost := 0 }

/-- The result of `Simulator.recalculate`: `all_assets` is the catalog after
the before pass (every asset, catalog order); `placed_assets` the enabled
assets in placement order with their `after_hours` filled in. -/
structure RecalcResult where
  all_assets : List Asset
  placed_assets : List Asset
  before_load : Load
  after_load : Load
  cost_before_cents : ℚ
  cost_after_cents : ℚ

/-- `logic.py` `Simulator.recalculate`: full before+after rebuild. -/
def recalculate (assets : List Asset) (base : Load) (p_flex w_price : ℚ) :
    RecalcResult :=
  let before := build_before_curve assets base
  let afterSt := build_after_curve before.1 before.2 p_flex w_price
  { all_assets := before.1, placed_assets := afterSt.assets,
    before_load := before.2, after_load := afterSt.load,
    cost_before_cents := cost_before_cents before.1,
    cost_after_cents := afterSt.cost }

/-- `logic.py` `Stats` dataclass. -/
structure Stats where
  peak_before : ℚ
  peak_after : ℚ
  peak_reduction : ℚ
  peak_reduction_pct : ℚ
  cost_before_eur : ℚ
  cost_after_eur : ℚ
  cost_saving_eur : ℚ
  cost_saving_pct : ℚ
  co2_saving_day : ℚ
  co2_saving_pct : ℚ
  co2_saving_year : ℚ

/-- The 24-hour peak `max(load)` of a curve. -/
def peak (l : Load) : ℚ := listMax ((List.range 24).map l)

/-- `sum(load[h] * co2[h] for h in range(24))` of `compute_stats`. -/
def co2_total (l co2 : Load) : ℚ :=
  (List.range 24).foldl (fun s h => s + l h * co2 h) 0

/-- `logic.py` `Simulator.compute_stats`, as a pure function of the two
curves, the two cent accumulators and the scenario's CO₂ curve. -/
def compute_stats (before_load after_load : Load)
    (cost_before_cents cost_after_cents : ℚ) (co2 : Load) : Stats :=
  let peak_before := peak before_load
  let peak_after := peak after_load
  let red := peak_before - peak_after
  let red_pct := if peak_before > 0 then red / peak_before * 100 else 0
  let cb_eur := cost_before_cents / 100
  let ca_eur := cost_after_cents / 100
  let saving_eur := cb_eur - ca_eur
  let saving_pct := if cb_eur > 0 then saving_eur / cb_eur * 100 else 0
  let co2_before := co2_total before_load co2
  let co2_after := co2_total after_load co2
  let co2_saving_day := co2_before - co2_after
  let co2_saving_pct := if co2_before > 0 then co2_saving_day / co2_before * 100 else 0
  { peak_before := peak_before, peak_after := peak_after,
    peak_reduction := red, peak_reduction_pct := red_pct,
    cost_before_eur := cb_eur, cost_after_eur := ca_eur,
    cost_saving_eur := saving_eur, cost_saving_pct := saving_pct,
    co2_saving_day := co2_saving_day, co2_saving_pct := co2_saving_pct,
    co2_saving_year := co2_saving_day * 365 }

/-- Python's substring test `needle in hay` on strings, over char lists. -/
def containsSub (needle : List Char) : List Char → Bool
  | [] => needle.isEmpty
  | c :: t => needle.isPrefixOf (c :: t) || containsSub needle t

/-- `scaling_factors.get(key, 1.0)`. -/
def scale_get (sf : List (String × ℚ)) (k : String) : ℚ :=
  (sf.lookup k).getD 1

/-- The factor built by the `apply_scenario` loop of `logic.py`: start from
1.0 and multiply in the scenario's factor for every category keyword that
occurs in the appliance label ("EV"; "HVAC" or "Heat"; "Battery"; "Sauna"). -/
def scenario_factor (sf : List (String × ℚ)) (appliance : String) : ℚ :=
  let app := appliance.toList
  let f : ℚ := 1
  let f := if containsSub ("EV").toList app then f * scale_get sf ("EV") else f
  let f := if containsSub ("HVAC").toList app || containsSub ("Heat").toList app then
      f * scale_get sf ("HVAC") else f
  let f := if containsSub ("Battery").toList app then f * scale_get sf ("Battery") else f
  let f := if containsSub ("Sauna").toList app then f * scale_get sf ("Sauna") else f
  f

/-- `logic.py` `Simulator.apply_scenario` (power-scaling part): each asset's
power becomes its stored base power times the scenario factor.  `base_power`
is the `Simulator.base_power` dict, indexed like the asset list. -/
def apply_scenario (base_power : List ℚ) (assets : List Asset) (sc : Scenario) :
    List Asset :=
  List.zipWith (fun base a => { a with power_kw := base * scenario_factor sc.scaling_factors a.appliance })
    base_power assets

/-- `database.py` "Winter weekday" scaling factors: EV 1.4, HVAC 1.8, Sauna 1.6. -/
def winter_scaling_factors : List (String × ℚ) :=
  [(("EV"), 14/10), (("HVAC"), 18/10), (("Sauna"), 16/10)]

/-- `database.py` `generate_winter_base_load`. -/
def generate_winter_base_load : Load := fun h =>
  55 + (if 5 ≤ h ∧ h ≤ 9 then 70 else 0) + (if 16 ≤ h ∧ h ≤ 22 then 90 else 0)

/-- `database.py` `generate_winter_co2`. -/
def generate_winter_co2 : Load := fun h =>
  CO2_PER_HOUR_BASELINE.getD h 0 * (if 17 ≤ h ∧ h ≤ 21 then 145/100 else 125/100)

/-- `database.py` scenario "Winter weekday". -/
def winter_weekday : Scenario :=
  { name := ("Winter weekday"), base_load := generate_winter_base_load,
    co2_per_hour := generate_winter_co2, scaling_factors := winter_scaling_factors }

/-- The validation part of `FlexiCityApp._read_form_asset` (`ui_tk.py`,
modular app): the sequence of `raise ValueError` checks on the parsed hour
and duration fields.  `.error` is the message of the raised `ValueError`. -/
def read_form_asset_checks (duration_h start stop : Nat) : Except String Unit :=
  if ¬ (start < 24) then .error ("Start hour must be between 0 and 23")
  else if ¬ (1 ≤ stop ∧ stop ≤ 24) then .error ("End hour must be between 1 and 24")
  else if (get_window_hours start stop).length = 0 then
    .error ("Time window is empty or invalid.")
  else if duration_h < 1 then .error ("Duration must be at least 1 hour.")
  else if duration_h > (get_window_hours start stop).length then
    .error ("Duration cannot exceed window length.")
  else .ok ()

namespace V1

/-! The monolithic "SmartLDS ver1.0" script embedded in `ui_tk.py` from the
`# === SmartLDS ver1.0.py ===` banner on.  Its `PRICE_PER_HOUR` and
`get_window_hours` are textually identical to the modular ones, so the
shared definitions above are reused; the schedule passes differ in their
guard structure and are embedded separately. -/

/-- `ui_tk.py` (v1.0) `clamp(val, lo, hi) = max(lo, min(hi, val))` on ints. -/
def clamp (val lo hi : Nat) : Nat := max lo (min hi val)

/-- One iteration of the v1.0 BEFORE loop of `recalculate_schedules`: reset
both hour lists, skip disabled assets, clamp the hours, treat `sh == eh` as
an empty window, clamp the duration into `[1, len(window)]`, skip
non-positive power, then place the first `duration` window hours. -/
def beforeStep (st : List Asset × Load) (a : Asset) : List Asset × Load :=
  let a0 := { a with before_hours := [], after_hours := [] }
  if ¬ a.enabled then (st.1 ++ [a0], st.2)
  else
    let sh := clamp a.start_hour 0 23
    let eh := clamp a.end_hour 0 24
    if sh = eh then (st.1 ++ [a0], st.2)
    else
      let window := get_window_hours sh eh
      if window = [] then (st.1 ++ [a0], st.2)
      else
        let duration := clamp a.duration_h 1 window.length
        if a.power_kw ≤ 0 then (st.1 ++ [a0], st.2)
        else
          let hours := window.take duration
          (st.1 ++ [{ a0 with before_hours := hours }], addHours st.2 hours a.power_kw)

/-- The v1.0 BEFORE pass: start from `BASE_LOAD`, place every enabled asset. -/
def build_before (assets : List Asset) (base : Load) : List Asset × Load :=
  assets.foldl beforeStep ([], base)

/-- The v1.0 `cost_before_flex` loop. -/
def cost_before_flex (assets : List Asset) : ℚ :=
  assets.foldl
    (fun c a =>
      if a.enabled then a.before_hours.foldl (fun s h => s + a.power_kw * price h) c
      else c)
    0

/-- One iteration of the v1.0 AFTER loop: skip non-positive power; short-
circuit `p <= 0` or empty `before_hours` (after_hours becomes a copy of
before_hours); treat `sh == eh` and empty windows the same way; otherwise
the same remove-score-choose-add placement as the modular engine. -/
def afterStep (participation w_price : ℚ) (st : AfterState) (a : Asset) : AfterState :=
  if a.power_kw ≤ 0 then { st with assets := st.assets ++ [a] }
  else if participation ≤ 0 ∨ a.before_hours = [] then
    { st with assets := st.assets ++ [{ a with after_hours := a.before_hours }] }
  else
    let sh := clamp a.start_hour 0 23
    let eh := clamp a.end_hour 0 24
    if sh = eh then { st with assets := st.assets ++ [{ a with after_hours := a.before_hours }] }
    else
      let window := get_window_hours sh eh
      if window = [] then
        { st with assets := st.assets ++ [{ a with after_hours := a.before_hours }] }
      else
        let duration := clamp a.duration_h 1 window.length
        let participating := a.power_kw * participation
        let load1 := addHours st.load a.before_hours (-participating)
        let score := assetScore w_price load1 window
        let chosen :=
          if a.var_flag then greedyPick score duration window
          else bestBlockChoice score window duration
        { assets := st.assets ++ [{ a with after_hours := chosen }],
          load := addHours load1 chosen participating, cost := st.cost }

/-- The v1.0 `cost_after_flex` loop, run after placement: remaining power on
the naive hours plus participating power on the chosen hours.  The source
iterates the catalog and skips disabled assets; the embedding folds over the
placed assets — the same enabled assets, each exactly once, in placement
order — which sums the same additive per-asset terms. -/
def cost_after_flex (participation : ℚ) (assets : List Asset) : ℚ :=
  assets.foldl
    (fun c a =>
      if a.enabled then
        a.after_hours.foldl (fun s h => s + a.power_kw * participation * price h)
          (a.before_hours.foldl (fun s h => s + a.power_kw * (1 - participation) * price h) c)
      else c)
    0

/-- `ui_tk.py` (v1.0) `recalculate_schedules`, from slider fractions
`participation = flex/100` and `priority_val = pr/100` (price weight). -/
def recalculate_schedules (assets : List Asset) (base : Load)
    (participation w_price : ℚ) : RecalcResult :=
  let before := build_before assets base
  let enabled_sorted :=
    (before.1.filter (fun a => a.enabled)).mergeSort
      (fun x y => decide (y.power_kw ≤ x.power_kw))
  let afterSt := enabled_sorted.foldl (afterStep participation w_price)
    { assets := [], load := before.2, cost := 0 }
  { all_assets := before.1, placed_assets := afterSt.assets,
    before_load := before.2, after_load := afterSt.load,
    cost_before_cents := cost_before_flex before.1,
    cost_after_cents := cost_after_flex participation afterSt.assets }

/-- Daily emissions `sum(load[h] * CO2_PER_HOUR[h])` of the v1.0 optimizers. -/
def emissions (l co2 : Load) : ℚ := co2_total l co2

/-- The slider grid `{0,10,...,100}` shared by all v1.0 optimizers. -/
def sliderSteps : List Nat := (List.range 11).map (fun i => 10 * i)

/-- The 11×11 search grid, flex outer ascending, priority inner ascending. -/
def grid : List (Nat × Nat) :=
  sliderSteps.flatMap (fun flex => sliderSteps.map (fun pr => (flex, pr)))

/-- `max(after_load)` at one grid point (both sliders as percentages). -/
def peak_after_at (assets : List Asset) (base : Load) (pt : Nat × Nat) : ℚ :=
  peak (recalculate_schedules assets base ((pt.1 : ℚ) / 100) ((pt.2 : ℚ) / 100)).after_load

/-- One iteration of the v1.0 `find_optimal_settings` loop: the running best
is replaced only when the new after-peak is strictly smaller. -/
def optimal_step (assets : List Asset) (base : Load)
    (best : Option ((Nat × Nat) × ℚ)) (pt : Nat × Nat) : Option ((Nat × Nat) × ℚ) :=
  let peak_a := peak_after_at assets base pt
  match best with
  | none => some (pt, peak_a)
  | some b => if peak_a < b.2 then some (pt, peak_a) else some b

/-- `ui_tk.py` (v1.0) `find_optimal_settings`: exhaustive min-peak grid
search, first strictly-better point wins. -/
def find_optimal_settings (assets : List Asset) (base : Load) :
    Option ((Nat × Nat) × ℚ) :=
  grid.foldl (optimal_step assets base) none

/-- What one v1.0 `find_ideal_peak_settings` iteration computes at a grid
point: the after-peak and the two savings versus the (p/w-independent)
baseline taken from the first iteration's before-values. -/
def ideal_peak_eval (assets : List Asset) (base co2 : Load) (pt : Nat × Nat) :
    ℚ × ℚ × ℚ :=
  let r0 := recalculate_schedules assets base 0 0
  let baseline_cost_eur := r0.cost_before_cents / 100
  let baseline_emissions := emissions r0.before_load co2
  let r := recalculate_schedules assets base ((pt.1 : ℚ) / 100) ((pt.2 : ℚ) / 100)
  (peak r.after_load,
   baseline_cost_eur - r.cost_after_cents / 100,
   baseline_emissions - emissions r.after_load co2)

/-- The `saving_cost < 0 or saving_co2 < 0: continue` filter: a grid point
is kept iff both savings are non-negative (an exact 0 passes). -/
def ideal_peak_feasible (assets : List Asset) (base co2 : Load) (pt : Nat × Nat) :
    Prop :=
  ¬ ((ideal_peak_eval assets base co2 pt).2.1 < 0 ∨
     (ideal_peak_eval assets base co2 pt).2.2 < 0)

instance (assets : List Asset) (base co2 : Load) (pt : Nat × Nat) :
    Decidable (ideal_peak_feasible assets base co2 pt) := by
  unfold ideal_peak_feasible; infer_instance

/-- One iteration of the v1.0 `find_ideal_peak_settings` loop: `continue`
past a point with a negative saving, otherwise keep the first strictly
smaller after-peak. -/
def ideal_peak_step (assets : List Asset) (base co2 : Load)
    (best : Option ((Nat × Nat) × ℚ)) (pt : Nat × Nat) : Option ((Nat × Nat) × ℚ) :=
  let e := ideal_peak_eval assets base co2 pt
  if e.2.1 < 0 ∨ e.2.2 < 0 then best
  else
    match best with
    | none => some (pt, e.1)
    | some b => if e.1 < b.2 then some (pt, e.1) else some b

/-- `ui_tk.py` (v1.0) `find_ideal_peak_settings`: minimize the after-peak
over the grid subject to non-negative cost and CO₂ savings; `none` is the
"No combination found" (infeasible) report. -/
def find_ideal_peak_settings (assets : List Asset) (base co2 : Load) :
    Option ((Nat × Nat) × ℚ) :=
  grid.foldl (ideal_peak_step assets base co2) none

/-- The validation part of the v1.0 `read_form_values` (`ui_tk.py`): it
rejects `start == end` outright as an empty window. -/
def read_form_values_checks (start stop : Nat) : Except String Unit :=
  if ¬ (start < 24) then .error ("Start hour must be between 0 and 23")
  else if ¬ (stop ≤ 24) then .error ("End hour must be between 0 and 24")
  else if start = stop then
    .error ("Start and end hour cannot be the same (empty window)")
  else .ok ()

end V1

/-! ## Properties of the first-minimum scan -/

section PyMin

variable {α : Type} (key : α → ℚ)

theorem pyMinGo_eq_or_mem (l : List α) : ∀ b : α,
    pyMinGo key b l = b ∨ pyMinGo key b l ∈ l := by
  induction l with
  | nil => intro b; left; rfl
  | cons x xs ih =>
      intro b
      rcases ih (if key x < key b then x else b) with h | h
      · rw [pyMinGo, h]
        split
        · right; exact List.mem_cons_self x xs
        · left; rfl
      · right; exact List.mem_cons_of_mem x h

theorem pyMinGo_key_le (l : List α) : ∀ b : α,
    key (pyMinGo key b l) ≤ key b := by
  induction l with
  | nil => intro b; exact le_refl _
  | cons x xs ih =>
      intro b
      rw [pyMinGo]
      refine le_trans (ih _) ?_
      split
      · exact le_of_lt (by assumption)
      · exact le_refl _

theorem pyMinGo_le_mem (l : List α) : ∀ (b : α), ∀ x ∈ l,
    key (pyMinGo key b l) ≤ key x := by
  induction l with
  | nil => intro b x hx; cases hx
  | cons y ys ih =>
      intro b x hx
      rw [pyMinGo]
      rcases List.mem_cons.1 hx with rfl | hx
      · refine le_trans (pyMinGo_key_le key ys _) ?_
        split
        · exact le_refl _
        · exact le_of_not_lt (by assumption)
      · exact ih _ x hx

theorem pyMinGo_lt_of_ne (l : List α) : ∀ b : α,
    pyMinGo key b l ≠ b → key (pyMinGo key b l) < key b := by
  induction l with
  | nil => intro b h; exact absurd rfl h
  | cons x xs ih =>
      intro b h
      rw [pyMinGo] at h ⊢
      by_cases hx : key x < key b
      · rw [if_pos hx] at h ⊢
        exact lt_of_le_of_lt (pyMinGo_key_le key xs x) hx
      · rw [if_neg hx] at h ⊢
        exact ih b h

theorem pyMinGo_first [DecidableEq α] (l : List α) : ∀ (b : α) (k : Nat)
    (hk : k < (b :: l).length), k < (b :: l).indexOf (pyMinGo key b l) →
    key (pyMinGo key b l) < key ((b :: l).get ⟨k, hk⟩) := by
  induction l with
  | nil =>
      intro b k hk hidx
      rw [pyMinGo, List.indexOf_cons_self] at hidx
      cases hidx
  | cons x xs ih =>
      intro b k hk hidx
      rw [pyMinGo] at hidx ⊢
      by_cases hx : key x < key b
      · rw [if_pos hx] at hidx ⊢
        have hlt : key (pyMinGo key x xs) < key b :=
          lt_of_le_of_lt (pyMinGo_key_le key xs x) hx
        have hne : pyMinGo key x xs ≠ b := fun he => absurd (he ▸ hlt) (lt_irrefl _)
        rw [List.indexOf_cons_ne _ (by simpa using hne.symm)] at hidx
        match k with
        | 0 => exact hlt
        | k + 1 =>
            have hk2 : k < (x :: xs).length := by
              simpa using Nat.lt_of_succ_lt_succ hk
            have := ih x k hk2 (Nat.lt_of_succ_lt_succ hidx)
            simpa using this
      · rw [if_neg hx] at hidx ⊢
        by_cases hb : pyMinGo key b xs = b
        · rw [hb, List.indexOf_cons_self] at hidx
          cases hidx
        · have hlt : key (pyMinGo key b xs) < key b := pyMinGo_lt_of_ne key xs b hb
          have hnex : pyMinGo key b xs ≠ x := by
            intro he
            have : key (pyMinGo key b xs) < key x := lt_of_lt_of_le hlt (le_of_not_lt hx)
            exact absurd (he ▸ this) (lt_irrefl _)
          rw [List.indexOf_cons_ne _ (by simpa using (Ne.symm hb)),
            List.indexOf_cons_ne _ (by simpa using (Ne.symm hnex))] at hidx
          match k with
          | 0 => exact hlt
          | 1 => exact lt_of_lt_of_le hlt (le_of_not_lt hx)
          | k + 2 =>
              have hk2 : k + 1 < (b :: xs).length := by
                simpa using Nat.lt_of_succ_lt_succ hk
              have hidx2 : k + 1 < (b :: xs).indexOf (pyMinGo key b xs) := by
                rw [List.indexOf_cons_ne _ (by simpa using (Ne.symm hb))]
                exact Nat.succ_lt_succ (Nat.lt_of_succ_lt_succ (Nat.lt_of_succ_lt_succ hidx))
              have := ih b (k + 1) hk2 hidx2
              simpa using this

theorem pyMin_mem [Inhabited α] {l : List α} (hl : l ≠ []) :
    pyMin key l ∈ l := by
  match l with
  | [] => exact absurd rfl hl
  | x :: xs =>
      rw [pyMin]
      rcases pyMinGo_eq_or_mem key xs x with h | h
      · rw [h]; exact List.mem_cons_self x xs
      · exact List.mem_cons_of_mem x h

theorem pyMin_le [Inhabited α] (l : List α) : ∀ x ∈ l, key (pyMin key l) ≤ key x := by
  match l with
  | [] => intro x hx; cases hx
  | y :: ys =>
      intro x hx
      rw [pyMin]
      rcases List.mem_cons.1 hx with rfl | hx
      · exact pyMinGo_key_le key ys x
      · exact pyMinGo_le_mem key ys y x hx

theorem pyMin_first [Inhabited α] [DecidableEq α] (l : List α) (k : Nat)
    (hk : k < l.length) (hidx : k < l.indexOf (pyMin key l)) :
    key (pyMin key l) < key (l.get ⟨k, hk⟩) := by
  match l with
  | [] => cases hk
  | x :: xs => exact pyMinGo_first key xs x k hk hidx

end PyMin

/-! ## Window arithmetic -/

theorem get_window_hours_ne_nil {start stop : Nat} (hs : start < 24) :
    get_window_hours start stop ≠ [] := by
  have hpos : 0 < (get_window_hours start stop).length := by
    by_cases hlt : start < stop
    · simp only [get_window_hours, if_pos hlt, List.length_range']
      omega
    · simp only [get_window_hours, if_neg hlt, List.length_append,
        List.length_range', List.length_range]
      omega
  exact List.length_pos.1 hpos

theorem mem_get_window_hours_lt {start stop h : Nat} (hs : start < 24)
    (he : stop ≤ 24) (hm : h ∈ get_window_hours start stop) : h < 24 := by
  by_cases hlt : start < stop
  · rw [get_window_hours, if_pos hlt] at hm
    have := List.mem_range'_1.1 hm
    omega
  · rw [get_window_hours, if_neg hlt] at hm
    rcases List.mem_append.1 hm with hm | hm
    · have := List.mem_range'_1.1 hm
      omega
    · have := List.mem_range.1 hm
      omega

theorem get_window_hours_nodup (start stop : Nat) :
    (get_window_hours start stop).Nodup := by
  by_cases hlt : start < stop
  · rw [get_window_hours, if_pos hlt]
    exact List.nodup_range' _ _
  · rw [get_window_hours, if_neg hlt]
    rw [List.nodup_append]
    refine ⟨List.nodup_range' _ _, List.nodup_range _, fun x hx hy => ?_⟩
    have h1 := (List.mem_range'_1.1 hx).1
    have h2 := List.mem_range.1 hy
    omega

/-! ## Properties of the greedy selection -/

theorem greedyPick_cons (key : Nat → ℚ) (n : Nat) (x : Nat) (xs : List Nat) :
    greedyPick key (n + 1) (x :: xs) =
      pyMin key (x :: xs) :: greedyPick key n ((x :: xs).erase (pyMin key (x :: xs))) := rfl

theorem greedyPick_length (key : Nat → ℚ) :
    ∀ (n : Nat) (l : List Nat), n ≤ l.length → (greedyPick key n l).length = n := by
  intro n
  induction n with
  | zero => intro l _; rfl
  | succ m ih =>
      intro l hl
      match l with
      | [] => simp at hl
      | x :: xs =>
          have hmem : pyMin key (x :: xs) ∈ x :: xs := pyMin_mem key (by simp)
          have hlen : ((x :: xs).erase (pyMin key (x :: xs))).length = xs.length := by
            rw [List.length_erase_of_mem hmem]
            simp
          rw [greedyPick, List.length_cons, ih _ (by rw [hlen]; simpa using hl)]

theorem greedyPick_subset (key : Nat → ℚ) :
    ∀ (n : Nat) (l : List Nat), ∀ h ∈ greedyPick key n l, h ∈ l := by
  intro n
  induction n with
  | zero => intro l h hh; cases hh
  | succ m ih =>
      intro l h hh
      match l with
      | [] => cases hh
      | x :: xs =>
          rw [greedyPick] at hh
          rcases List.mem_cons.1 hh with rfl | hh
          · exact pyMin_mem key (by simp)
          · exact (List.erase_sublist _ _).mem (ih _ h hh)

theorem greedyPick_nodup (key : Nat → ℚ) :
    ∀ (n : Nat) (l : List Nat), l.Nodup → (greedyPick key n l).Nodup := by
  intro n
  induction n with
  | zero => intro l _; exact List.nodup_nil
  | succ m ih =>
      intro l hl
      match l with
      | [] => exact List.nodup_nil
      | x :: xs =>
          rw [greedyPick]
          refine List.nodup_cons.2 ⟨fun hmem => ?_, ih _ (hl.erase _)⟩
          exact (List.Nodup.not_mem_erase hl) (greedyPick_subset key m _ _ hmem)

/-- The not-yet-chosen candidates after `i` greedy picks: the window minus
the first `i` chosen hours, in window order (Python's `available` list
after `i` calls of `remove`). -/
def poolAt (window chosen : List Nat) (i : Nat) : List Nat :=
  window.filter (fun h => decide (h ∉ chosen.take i))

theorem poolAt_zero (window chosen : List Nat) : poolAt window chosen 0 = window := by
  simp [poolAt]

theorem poolAt_succ : ∀ (l : List Nat), l.Nodup → ∀ (b : Nat) (ch : List Nat) (j : Nat),
    poolAt l (b :: ch) (j + 1) = poolAt (l.erase b) ch j := by
  intro l hl b ch j
  unfold poolAt
  rw [List.Nodup.erase_eq_filter hl, List.filter_filter]
  apply List.filter_congr
  intro h _
  rw [List.take_succ_cons]
  by_cases hb : h = b
  · subst hb
    simp
  · simp [hb, bne_iff_ne, Ne, List.mem_cons]

theorem greedyPick_get (key : Nat → ℚ) :
    ∀ (n : Nat) (l : List Nat), l.Nodup →
    ∀ (i : Nat) (hi : i < (greedyPick key n l).length),
      poolAt l (greedyPick key n l) i ≠ [] ∧
      (greedyPick key n l).get ⟨i, hi⟩ = pyMin key (poolAt l (greedyPick key n l) i) := by
  intro n
  induction n with
  | zero => intro l _ i hi; simp [greedyPick] at hi
  | succ m ih =>
      intro l hl i hi
      match l with
      | [] => simp [greedyPick] at hi
      | x :: xs =>
          match i with
          | 0 =>
              rw [poolAt_zero]
              exact ⟨by simp, by simp only [greedyPick_cons, List.get]⟩
          | j + 1 =>
              simp only [greedyPick_cons] at hi ⊢
              have hj : j < (greedyPick key m ((x :: xs).erase (pyMin key (x :: xs)))).length := by
                simpa using hi
              have hrec := ih ((x :: xs).erase (pyMin key (x :: xs))) (hl.erase _) j hj
              rw [poolAt_succ (x :: xs) hl _ _ j]
              exact ⟨hrec.1, by simpa using hrec.2⟩

/-! ## Load-curve accounting -/

theorem addHours_cons (l : Load) (y : Nat) (ys : List Nat) (x : ℚ) :
    addHours l (y :: ys) x = addHours (addAt l y x) ys x := rfl

theorem addHours_apply (x : ℚ) : ∀ (hs : List Nat) (l : Load) (h : Nat),
    addHours l hs x h = l h + (hs.count h : ℚ) * x := by
  intro hs
  induction hs with
  | nil => intro l h; simp [addHours]
  | cons y ys ih =>
      intro l h
      rw [addHours_cons, ih]
      by_cases hy : h = y
      · subst hy
        rw [List.count_cons_self]
        simp [addAt]
        ring
      · rw [List.count_cons_of_ne (by simpa using hy)]
        simp [addAt, hy]

theorem addHours_nodup_apply {hs : List Nat} (hnd : hs.Nodup) (l : Load) (x : ℚ)
    (h : Nat) : addHours l hs x h = l h + (if h ∈ hs then x else 0) := by
  rw [addHours_apply]
  by_cases hm : h ∈ hs
  · rw [List.count_eq_one_of_mem hnd hm, if_pos hm]
    push_cast
    ring
  · rw [List.count_eq_zero_of_not_mem hm, if_neg hm]
    push_cast
    ring

theorem addHours_zero (hs : List Nat) (l : Load) : addHours l hs 0 = l := by
  funext h
  rw [addHours_apply]
  ring

/-! ## Properties of the fixed-block branch -/

theorem blockList_mem_length {window : List Nat} {d : Nat} (hd : d ≤ window.length)
    {b : List Nat} (hb : b ∈ blockList window d) : b.length = d := by
  unfold blockList at hb
  rcases List.mem_map.1 hb with ⟨i, hi, rfl⟩
  have hi2 := List.mem_range.1 hi
  have hle : d ≤ window.length - i := by omega
  rw [List.length_take, List.length_drop, Nat.min_eq_left hle]

theorem blockList_mem_sublist {window : List Nat} {d : Nat} {b : List Nat}
    (hb : b ∈ blockList window d) : b.Sublist window := by
  unfold blockList at hb
  rcases List.mem_map.1 hb with ⟨i, _, rfl⟩
  exact (List.take_sublist _ _).trans (List.drop_sublist _ _)

theorem blockList_ne_nil (window : List Nat) (d : Nat) :
    blockList window d ≠ [] := by
  have : 0 < (blockList window d).length := by
    unfold blockList
    rw [List.length_map, List.length_range]
    omega
  exact List.length_pos.1 this

theorem bestBlockChoice_spec (score : Nat → ℚ) (window : List Nat) (d : Nat)
    (hd1 : 1 ≤ d) (hd2 : d ≤ window.length) :
    (bestBlockChoice score window d).length = d ∧
      (bestBlockChoice score window d).Sublist window := by
  have hno : ¬ d > window.length := not_lt.2 hd2
  match hbl : blockList window d with
  | [] => exact absurd hbl (blockList_ne_nil window d)
  | b :: t =>
      have hr : pyMinGo (fun bl => (bl.map score).sum) b t ∈ blockList window d := by
        rw [hbl]
        rcases pyMinGo_eq_or_mem (fun bl => (bl.map score).sum) t b with h | h
        · rw [h]; exact List.mem_cons_self _ _
        · exact List.mem_cons_of_mem _ h
      have hlen := blockList_mem_length hd2 hr
      have hne : pyMinGo (fun bl => (bl.map score).sum) b t ≠ [] := by
        rw [← List.length_pos, hlen]
        omega
      have hres : bestBlockChoice score window d = pyMinGo (fun bl => (bl.map score).sum) b t := by
        unfold bestBlockChoice
        simp only [if_neg hno, hbl, pyMinBlock, if_neg hne]
      rw [hres]
      exact ⟨hlen, blockList_mem_sublist hr⟩

/-! ## Closed form of the before pass -/

/-- What `_build_before_curve` stores in `before_hours` for one asset. -/
def beforeHoursOf (a : Asset) : List Nat :=
  if ¬ a.enabled then []
  else
    let window := get_window_hours a.start_hour a.end_hour
    if window = [] then []
    else window.take (min a.duration_h window.length)

/-- One asset after the before pass. -/
def beforePlace (a : Asset) : Asset := { a with before_hours := beforeHoursOf a }

theorem beforeHoursOf_nodup (a : Asset) : (beforeHoursOf a).Nodup := by
  unfold beforeHoursOf
  by_cases he : a.enabled
  · by_cases hw : get_window_hours a.start_hour a.end_hour = []
    · simp [he, hw]
    · simp only [he, not_true, if_false, hw, if_neg]
      exact (List.take_sublist _ _).nodup (get_window_hours_nodup _ _)
  · simp [he]

theorem beforeStep_eq (st : List Asset × Load) (a : Asset) :
    beforeStep st a =
      (st.1 ++ [beforePlace a], addHours st.2 (beforeHoursOf a) a.power_kw) := by
  unfold beforeStep beforePlace beforeHoursOf
  by_cases he : a.enabled
  · simp only [he, not_true, if_neg, if_false]
    by_cases hw : get_window_hours a.start_hour a.end_hour = []
    · simp [hw, addHours]
    · simp [hw]
  · simp [he, addHours]

theorem build_before_go : ∀ (assets : List Asset) (acc : List Asset × Load),
    assets.foldl beforeStep acc =
      (acc.1 ++ assets.map beforePlace,
       fun h => acc.2 h +
         (assets.map (fun a => if h ∈ beforeHoursOf a then a.power_kw else 0)).sum) := by
  intro assets
  induction assets with
  | nil =>
      intro acc
      refine Prod.ext (by simp) ?_
      funext h
      simp
  | cons a rest ih =>
      intro acc
      rw [List.foldl_cons, beforeStep_eq, ih]
      refine Prod.ext (by simp) ?_
      funext h
      simp only [List.map_cons, List.sum_cons,
        addHours_nodup_apply (beforeHoursOf_nodup a) acc.2 a.power_kw h]
      ring

theorem build_before_curve_eq (assets : List Asset) (base : Load) :
    build_before_curve assets base =
      (assets.map beforePlace,
       fun h => base h +
         (assets.map (fun a => if h ∈ beforeHoursOf a then a.power_kw else 0)).sum) := by
  unfold build_before_curve
  rw [build_before_go]
  simp

/-- Total daily energy of a curve: the sum of the 24 hourly loads. -/
def totalLoad (l : Load) : ℚ := ((List.range 24).map l).sum

theorem sum_map_addAt (l : Load) (h0 : Nat) (x : ℚ) :
    ∀ (L : List Nat), L.Nodup → h0 ∈ L →
      (L.map (addAt l h0 x)).sum = (L.map l).sum + x := by
  intro L
  induction L with
  | nil => intro _ hm; cases hm
  | cons y ys ih =>
      intro hnd hm
      by_cases hy : y = h0
      · subst hy
        have hnot : y ∉ ys := (List.nodup_cons.1 hnd).1
        have hmap : ys.map (addAt l y x) = ys.map l := by
          apply List.map_congr_left
          intro a ha
          have hne : a ≠ y := fun he => hnot (he ▸ ha)
          simp [addAt, hne]
        simp only [List.map_cons, List.sum_cons, hmap]
        simp [addAt]
        ring
      · have hm2 : h0 ∈ ys := by
          rcases List.mem_cons.1 hm with he | hm2
          · exact absurd he.symm hy
          · exact hm2
        simp only [List.map_cons, List.sum_cons, ih (List.nodup_cons.1 hnd).2 hm2]
        simp [addAt, hy]
        ring

theorem totalLoad_addAt {h0 : Nat} (hh : h0 < 24) (l : Load) (x : ℚ) :
    totalLoad (addAt l h0 x) = totalLoad l + x := by
  unfold totalLoad
  exact sum_map_addAt l h0 x _ (List.nodup_range _) (List.mem_range.2 hh)

theorem totalLoad_addHours : ∀ (hs : List Nat) (l : Load) (x : ℚ),
    (∀ h ∈ hs, h < 24) →
      totalLoad (addHours l hs x) = totalLoad l + (hs.length : ℚ) * x := by
  intro hs
  induction hs with
  | nil => intro l x _; simp [addHours]
  | cons y ys ih =>
      intro l x hb
      rw [addHours_cons, ih _ _ (fun h hm => hb h (List.mem_cons_of_mem y hm)),
        totalLoad_addAt (hb y (List.mem_cons_self y ys)), List.length_cons]
      push_cast
      ring

/-! ## Concrete fixtures used by witnesses and counterexamples -/

/-- An all-zero ambient load, for concrete runs. -/
def base0 : Load := fun _ => 0

/-- A variable one-hour EV charger with window `[0, 2)`. -/
def asset_ev1 : Asset :=
  { owner := ("A"), appliance := ("EV charger (EV)"), power_kw := 10,
    duration_h := 1, start_hour := 0, end_hour := 2, var_flag := true }

/-- A variable asset with `duration_h = 10` but only a 6-hour window `[14, 20)`. -/
def asset_d10w6 : Asset :=
  { owner := ("B"), appliance := ("HVAC"), power_kw := 30,
    duration_h := 10, start_hour := 14, end_hour := 20, var_flag := true }

/-- An enabled asset with zero rated power. -/
def asset_zero : Asset :=
  { owner := ("Z"), appliance := ("EV charger (EV)"), power_kw := 0,
    duration_h := 2, start_hour := 0, end_hour := 6, var_flag := true }

/-! ## Claim C4 -/

/-- C4: after a recompute, every enabled asset with a non-empty window has
`before_hours` equal to the first `min(duration_h, len(window))` hours of its
window, and `before_load` adds each enabled asset's full rated power at
exactly its `before_hours`; moreover an asset with `duration_h = 10` and a
6-hour window ends up with `len(before_hours) = 6`. -/
theorem before_curve_naive_placement (assets : List Asset) (base : Load) (p w : ℚ) :
    (∀ a' ∈ (recalculate assets base p w).all_assets,
        a'.enabled = true → get_window_hours a'.start_hour a'.end_hour ≠ [] →
          a'.before_hours =
            (get_window_hours a'.start_hour a'.end_hour).take
              (min a'.duration_h (get_window_hours a'.start_hour a'.end_hour).length)) ∧
    (∀ h : Nat, (recalculate assets base p w).before_load h =
        base h + ((recalculate assets base p w).all_assets.map
          (fun a' => if a'.enabled ∧ h ∈ a'.before_hours then a'.power_kw else 0)).sum) ∧
    ((recalculate [asset_d10w6] base p w).all_assets.map
        (fun a' => a'.before_hours.length)) = [6] := by
  have hassets : (recalculate assets base p w).all_assets = assets.map beforePlace := by
    unfold recalculate
    simp [build_before_curve_eq]
  have hload : (recalculate assets base p w).before_load =
      fun h => base h +
        (assets.map (fun a => if h ∈ beforeHoursOf a then a.power_kw else 0)).sum := by
    unfold recalculate
    simp [build_before_curve_eq]
  refine ⟨?_, ?_, ?_⟩
  · intro a' ha' hen hw
    rw [hassets] at ha'
    rcases List.mem_map.1 ha' with ⟨a, _, rfl⟩
    have hen' : a.enabled = true := hen
    have hw' : get_window_hours a.start_hour a.end_hour ≠ [] := hw
    show beforeHoursOf a = _
    unfold beforeHoursOf
    simp only [beforePlace]
    simp [hen', hw']
  · intro h
    have hmaps : (assets.map (fun a => if h ∈ beforeHoursOf a then a.power_kw else 0)) =
        assets.map ((fun a' => if a'.enabled = true ∧ h ∈ a'.before_hours then a'.power_kw else 0)
          ∘ beforePlace) := by
      apply List.map_congr_left
      intro a _
      show _ = if (beforePlace a).enabled = true ∧ h ∈ (beforePlace a).before_hours
          then (beforePlace a).power_kw else 0
      by_cases hen : a.enabled
      · simp [beforePlace, hen]
      · have hnil : beforeHoursOf a = [] := by simp [beforeHoursOf, hen]
        simp [beforePlace, hen, hnil]
    rw [hassets, hload, List.map_map, ← hmaps]
  · with_unfolding_all rfl

/-! ## Closed form of the after-pass placement step -/

theorem afterStep_eq_of_placed (p w : ℚ) (st : AfterState) (a : Asset)
    (hpow : 0 < a.power_kw) (hbh : a.before_hours ≠ [])
    (hw : get_window_hours a.start_hour a.end_hour ≠ []) :
    afterStep p w st a =
      (let window := get_window_hours a.start_hour a.end_hour
       let duration := min a.duration_h window.length
       let participate := a.power_kw * p
       let load1 := addHours st.load a.before_hours (-participate)
       let score := assetScore w load1 window
       let chosen := if a.var_flag then greedyPick score duration window
                     else bestBlockChoice score window duration
       { assets := st.assets ++ [{ a with after_hours := chosen }],
         load := addHours load1 chosen participate,
         cost := chosen.foldl (fun s h => s + participate * price h)
           (a.before_hours.foldl (fun s h => s + a.power_kw * (1 - p) * price h)
             st.cost) }) := by
  have h1 : ¬ (a.power_kw ≤ 0 ∨ a.before_hours = []) := by
    push_neg
    exact ⟨hpow, hbh⟩
  unfold afterStep
  simp only [if_neg h1, if_neg hw]

/-! ## The after pass at p = 0 (claim C7) -/

theorem afterStep_load_p0 (w : ℚ) (st : AfterState) (a : Asset) :
    (afterStep 0 w st a).load = st.load := by
  unfold afterStep
  by_cases h1 : a.power_kw ≤ 0 ∨ a.before_hours = []
  · simp [h1]
  · simp only [if_neg h1]
    by_cases hw : get_window_hours a.start_hour a.end_hour = []
    · simp [hw]
    · simp only [if_neg hw]
      simp [mul_zero, neg_zero, addHours_zero]

theorem afterFold_load_p0 (w : ℚ) : ∀ (l : List Asset) (st : AfterState),
    (l.foldl (afterStep 0 w) st).load = st.load := by
  intro l
  induction l with
  | nil => intro st; rfl
  | cons a rest ih =>
      intro st
      rw [List.foldl_cons, ih, afterStep_load_p0]

/-- C7: recomputing with flex participation 0 leaves the after curve equal
to the before curve at every hour, for every catalog, base curve and price
weight (the participating power is `power * 0 = 0`, so nothing moves). -/
theorem recalc_p0_after_eq_before (assets : List Asset) (base : Load) (w : ℚ)
    (h : Nat) :
    (recalculate assets base 0 w).after_load h =
      (recalculate assets base 0 w).before_load h := by
  show (build_after_curve (build_before_curve assets base).1
      (build_before_curve assets base).2 0 w).load h =
    (build_before_curve assets base).2 h
  unfold build_after_curve
  simp only [afterFold_load_p0]

/-! ## Energy conservation of the after pass (claim C10) -/

/-- The shape every asset has when it reaches the after pass: in-range hour
fields and `before_hours` exactly as the before pass leaves them. -/
def AssetInv (a : Asset) : Prop :=
  a.start_hour < 24 ∧ a.end_hour ≤ 24 ∧
    (a.before_hours = [] ∨
      a.before_hours =
        (get_window_hours a.start_hour a.end_hour).take
          (min a.duration_h (get_window_hours a.start_hour a.end_hour).length))

theorem beforePlace_inv {a : Asset} (h1 : a.start_hour < 24) (h2 : a.end_hour ≤ 24) :
    AssetInv (beforePlace a) := by
  refine ⟨h1, h2, ?_⟩
  show beforeHoursOf a = [] ∨ beforeHoursOf a = _
  unfold beforeHoursOf
  by_cases hen : a.enabled
  · by_cases hw : get_window_hours a.start_hour a.end_hour = []
    · left
      simp [hen, hw]
    · right
      simp [hen, hw]
      rfl
  · left
    simp [hen]

theorem afterStep_cases (p w : ℚ) (st : AfterState) {a : Asset} (hinv : AssetInv a)
    (hah : a.after_hours = []) :
    totalLoad (afterStep p w st a).load = totalLoad st.load ∧
    ∃ ah : List Nat,
      (afterStep p w st a).assets = st.assets ++ [{ a with after_hours := ah }] ∧
      (0 < a.power_kw → a.before_hours ≠ [] → ah.length = a.before_hours.length) ∧
      (a.before_hours = [] → ah = []) := by
  obtain ⟨hs24, he24, hbh⟩ := hinv
  have hwne : get_window_hours a.start_hour a.end_hour ≠ [] :=
    get_window_hours_ne_nil hs24
  by_cases h1 : a.power_kw ≤ 0 ∨ a.before_hours = []
  · refine ⟨by unfold afterStep; simp [h1], a.after_hours, ?_, ?_, fun _ => hah⟩
    · unfold afterStep
      simp [h1]
    · intro hp hne
      rcases h1 with h1 | h1
      · exact absurd hp (not_lt.2 h1)
      · exact absurd h1 hne
  · push_neg at h1
    obtain ⟨hpow, hne⟩ := h1
    rcases hbh with hb0 | hbt
    · exact absurd hb0 hne
    rw [afterStep_eq_of_placed p w st a hpow hne hwne]
    simp only []
    have hbsub : a.before_hours.Sublist (get_window_hours a.start_hour a.end_hour) := by
      rw [hbt]
      exact List.take_sublist _ _
    have hb24 : ∀ x ∈ a.before_hours, x < 24 := fun x hx =>
      mem_get_window_hours_lt hs24 he24 (hbsub.mem hx)
    have hblen : a.before_hours.length =
        min a.duration_h (get_window_hours a.start_hour a.end_hour).length := by
      rw [hbt, List.length_take, min_eq_left (min_le_right _ _)]
    have hd1 : 1 ≤ min a.duration_h (get_window_hours a.start_hour a.end_hour).length := by
      rcases Nat.eq_zero_or_pos (min a.duration_h
        (get_window_hours a.start_hour a.end_hour).length) with h0 | h0
      · rw [h0] at hblen
        exact absurd (List.length_eq_zero.1 hblen) hne
      · exact h0
    have hchosen : ∀ score : Nat → ℚ,
        (if a.var_flag then
            greedyPick score (min a.duration_h
              (get_window_hours a.start_hour a.end_hour).length)
              (get_window_hours a.start_hour a.end_hour)
          else bestBlockChoice score (get_window_hours a.start_hour a.end_hour)
              (min a.duration_h (get_window_hours a.start_hour a.end_hour).length)).length =
          min a.duration_h (get_window_hours a.start_hour a.end_hour).length ∧
        ∀ x ∈ (if a.var_flag then
            greedyPick score (min a.duration_h
              (get_window_hours a.start_hour a.end_hour).length)
              (get_window_hours a.start_hour a.end_hour)
          else bestBlockChoice score (get_window_hours a.start_hour a.end_hour)
              (min a.duration_h (get_window_hours a.start_hour a.end_hour).length)), x < 24 := by
      intro score
      by_cases hv : a.var_flag
      · simp only [hv, if_true]
        refine ⟨greedyPick_length score _ _ (min_le_right _ _), fun x hx => ?_⟩
        exact mem_get_window_hours_lt hs24 he24 (greedyPick_subset score _ _ x hx)
      · simp only [hv, if_false]
        obtain ⟨hl, hsub⟩ := bestBlockChoice_spec score
          (get_window_hours a.start_hour a.end_hour) _ hd1 (min_le_right _ _)
        exact ⟨hl, fun x hx => mem_get_window_hours_lt hs24 he24 (hsub.mem hx)⟩
    constructor
    · obtain ⟨hclen, hc24⟩ := hchosen (assetScore w
        (addHours st.load a.before_hours (-(a.power_kw * p)))
        (get_window_hours a.start_hour a.end_hour))
      rw [totalLoad_addHours _ _ _ hc24, totalLoad_addHours _ _ _ hb24, hclen, hblen]
      ring
    · refine ⟨_, rfl, fun _ _ => ?_, fun hb => absurd hb hne⟩
      obtain ⟨hclen, _⟩ := hchosen (assetScore w
        (addHours st.load a.before_hours (-(a.power_kw * p)))
        (get_window_hours a.start_hour a.end_hour))
      rw [hclen, hblen]

/-- Every iteration of the modular after loop appends exactly one asset,
changed at most in `after_hours`; an asset entering with empty
`before_hours` leaves with empty `after_hours`. -/
theorem afterStep_assets_shape (p w : ℚ) (st : AfterState) (a : Asset)
    (hah : a.after_hours = []) :
    ∃ ch, (afterStep p w st a).assets = st.assets ++ [{ a with after_hours := ch }] ∧
      (a.before_hours = [] → ch = []) := by
  by_cases h1 : a.power_kw ≤ 0 ∨ a.before_hours = []
  · refine ⟨a.after_hours, ?_, fun _ => hah⟩
    unfold afterStep
    simp [h1]
  · push_neg at h1
    by_cases hw : get_window_hours a.start_hour a.end_hour = []
    · refine ⟨a.before_hours, ?_, fun hbe => absurd hbe h1.2⟩
      unfold afterStep
      simp [not_or.2 ⟨not_le.2 h1.1, h1.2⟩, hw]
    · refine ⟨(if a.var_flag then
          greedyPick (assetScore w (addHours st.load a.before_hours (-(a.power_kw * p)))
              (get_window_hours a.start_hour a.end_hour))
            (min a.duration_h (get_window_hours a.start_hour a.end_hour).length)
            (get_window_hours a.start_hour a.end_hour)
        else bestBlockChoice (assetScore w (addHours st.load a.before_hours (-(a.power_kw * p)))
              (get_window_hours a.start_hour a.end_hour))
            (get_window_hours a.start_hour a.end_hour)
            (min a.duration_h (get_window_hours a.start_hour a.end_hour).length)),
        ?_, fun hbe => absurd hbe h1.2⟩
      rw [afterStep_eq_of_placed p w st a h1.1 h1.2 hw]

theorem afterFold_cases (p w : ℚ) : ∀ (l : List Asset) (st : AfterState),
    (∀ a ∈ l, AssetInv a ∧ a.after_hours = []) →
      totalLoad (l.foldl (afterStep p w) st).load = totalLoad st.load ∧
      ∀ a' ∈ (l.foldl (afterStep p w) st).assets,
        a' ∈ st.assets ∨
          ((0 < a'.power_kw → a'.before_hours ≠ [] →
              a'.after_hours.length = a'.before_hours.length) ∧
            (a'.before_hours = [] → a'.after_hours = [])) := by
  intro l
  induction l with
  | nil => exact fun st _ => ⟨rfl, fun a' ha' => Or.inl ha'⟩
  | cons a rest ih =>
      intro st hall
      rw [List.foldl_cons]
      obtain ⟨htl, ah, hassets, hlen, hempty⟩ :=
        afterStep_cases p w st (hall a (List.mem_cons_self a rest)).1
          (hall a (List.mem_cons_self a rest)).2
      obtain ⟨ihtl, ihmem⟩ :=
        ih (afterStep p w st a) (fun b hb => hall b (List.mem_cons_of_mem a hb))
      refine ⟨by rw [ihtl, htl], ?_⟩
      intro a' ha'
      rcases ihmem a' ha' with hin | hgood
      · rw [hassets] at hin
        rcases List.mem_append.1 hin with hin | hnew
        · exact Or.inl hin
        · have heq : a' = { a with after_hours := ah } := by simpa using hnew
          subst heq
          exact Or.inr ⟨fun hp hne => hlen hp hne, fun hbe => hempty hbe⟩
      · exact Or.inr hgood

/-- Every asset entering the placement loop of `build_after_curve` (cleared,
enabled-filtered and power-sorted) satisfies the after-pass invariant. -/
theorem build_after_inputs_inv (assets : List Asset) (base : Load)
    (hb : ∀ a ∈ assets, a.start_hour < 24 ∧ a.end_hour ≤ 24) :
    ∀ a ∈ (((build_before_curve assets base).1.map
          (fun a => { a with after_hours := [] })).filter
        (fun a => a.enabled)).mergeSort (fun x y => decide (y.power_kw ≤ x.power_kw)),
      AssetInv a ∧ a.after_hours = [] := by
  intro a ha
  have h1 : a ∈ ((build_before_curve assets base).1.map
      (fun a => { a with after_hours := [] })).filter (fun a => a.enabled) :=
    (List.mergeSort_perm _ _).mem_iff.1 ha
  have h2 := (List.mem_filter.1 h1).1
  rcases List.mem_map.1 h2 with ⟨b, hb1, rfl⟩
  rw [build_before_curve_eq] at hb1
  simp only [Prod.fst] at hb1
  rcases List.mem_map.1 hb1 with ⟨c, hc, rfl⟩
  obtain ⟨hc1, hc2⟩ := hb c hc
  exact ⟨beforePlace_inv hc1 hc2, rfl⟩

/-- C10: the after pass conserves total daily energy exactly — for every
catalog with in-range hour fields, every base curve, every `p` and `w`, the
24-hour sum of `after_load` equals that of `before_load`, and every placed
asset with positive power and non-empty `before_hours` is re-placed at
exactly `len(before_hours)` hours. -/
theorem recalc_energy_conserved (assets : List Asset) (base : Load) (p w : ℚ)
    (hb : ∀ a ∈ assets, a.start_hour < 24 ∧ a.end_hour ≤ 24) :
    totalLoad (recalculate assets base p w).after_load =
      totalLoad (recalculate assets base p w).before_load ∧
    ∀ a' ∈ (recalculate assets base p w).placed_assets,
      0 < a'.power_kw → a'.before_hours ≠ [] →
        a'.after_hours.length = a'.before_hours.length := by
  have hinputs := build_after_inputs_inv assets base hb
  have hfold := afterFold_cases p w
    ((((build_before_curve assets base).1.map
        (fun a => { a with after_hours := [] })).filter
      (fun a => a.enabled)).mergeSort (fun x y => decide (y.power_kw ≤ x.power_kw)))
    { assets := [], load := (build_before_curve assets base).2, cost := 0 }
    hinputs
  constructor
  · exact hfold.1
  · intro a' ha' hp hne
    have ha'2 : a' ∈ (((((build_before_curve assets base).1.map
        (fun a => { a with after_hours := [] })).filter
      (fun a => a.enabled)).mergeSort (fun x y => decide (y.power_kw ≤ x.power_kw))).foldl
        (afterStep p w)
        { assets := [], load := (build_before_curve assets base).2, cost := 0 }).assets := ha'
    rcases hfold.2 a' ha'2 with hin | hgood
    · cases hin
    · exact hgood.1 hp hne

/-! ## Claim C1 -/

/-- C1: for a variable asset with positive power, non-empty `before_hours`
and positive flex share, the after-pass placement appends exactly the greedy
selection: `duration = min(duration_h, len(window))` distinct window hours,
picked one at a time as the minimum-score hour of the remaining candidate
pool, where the first (earliest in window iteration order) of several
equal-score candidates always wins.  The placement is a pure function of the
asset, the current curve and the sliders, so re-running the recompute
reproduces the same choice. -/
theorem variable_asset_greedy_placement (p w : ℚ) (st : AfterState) (a : Asset)
    (hvar : a.var_flag = true) (hpow : 0 < a.power_kw) (hbh : a.before_hours ≠ [])
    (hp : 0 < p) (hs24 : a.start_hour < 24) :
    let window := get_window_hours a.start_hour a.end_hour
    let duration := min a.duration_h window.length
    let score := assetScore w (addHours st.load a.before_hours (-(a.power_kw * p))) window
    let chosen := greedyPick score duration window
    (afterStep p w st a).assets = st.assets ++ [{ a with after_hours := chosen }] ∧
    chosen.length = duration ∧
    chosen.Nodup ∧
    (∀ h ∈ chosen, h ∈ window) ∧
    (∀ (i : Nat) (hi : i < chosen.length),
      poolAt window chosen i ≠ [] ∧
      chosen.get ⟨i, hi⟩ = pyMin score (poolAt window chosen i) ∧
      chosen.get ⟨i, hi⟩ ∈ poolAt window chosen i ∧
      (∀ h ∈ poolAt window chosen i, score (chosen.get ⟨i, hi⟩) ≤ score h) ∧
      (∀ (k : Nat) (hk : k < (poolAt window chosen i).length),
        score ((poolAt window chosen i).get ⟨k, hk⟩) ≤ score (chosen.get ⟨i, hi⟩) →
          (poolAt window chosen i).indexOf (chosen.get ⟨i, hi⟩) ≤ k)) := by
  intro window duration score chosen
  have hwne : window ≠ [] := get_window_hours_ne_nil hs24
  have hwnd : window.Nodup := get_window_hours_nodup _ _
  refine ⟨?_, greedyPick_length score duration window (min_le_right _ _),
    greedyPick_nodup score duration window hwnd,
    greedyPick_subset score duration window, ?_⟩
  · rw [afterStep_eq_of_placed p w st a hpow hbh hwne]
    simp only [hvar, if_true]
  · intro i hi
    obtain ⟨hpool, hget⟩ := greedyPick_get score duration window hwnd i hi
    have hmem : chosen.get ⟨i, hi⟩ ∈ poolAt window chosen i := by
      rw [hget]
      exact pyMin_mem score hpool
    refine ⟨hpool, hget, hmem, ?_, ?_⟩
    · intro h hh
      rw [hget]
      exact pyMin_le score _ h hh
    · intro k hk hle
      by_contra hgt
      push_neg at hgt
      have hidx : k < (poolAt window chosen i).indexOf (pyMin score (poolAt window chosen i)) := by
        rw [← hget]
        exact hgt
      have := pyMin_first score (poolAt window chosen i) k hk hidx
      rw [← hget] at this
      exact absurd hle (not_le.2 this)

/-! ## Closed form of the v1.0 before pass -/

namespace V1

/-- What the v1.0 before pass stores in `before_hours` for one asset. -/
def beforeHoursV1 (b : Asset) : List Nat :=
  if ¬ b.enabled then []
  else
    let sh := clamp b.start_hour 0 23
    let eh := clamp b.end_hour 0 24
    if sh = eh then []
    else
      let window := get_window_hours sh eh
      if window = [] then []
      else if b.power_kw ≤ 0 then []
      else window.take (clamp b.duration_h 1 window.length)

/-- One asset after the v1.0 before pass (both hour lists reset first). -/
def beforePlaceV1 (b : Asset) : Asset :=
  { b with before_hours := beforeHoursV1 b, after_hours := [] }

theorem beforeHoursV1_nodup (b : Asset) : (beforeHoursV1 b).Nodup := by
  unfold beforeHoursV1
  by_cases he : b.enabled
  · by_cases hse : clamp b.start_hour 0 23 = clamp b.end_hour 0 24
    · simp [he, hse]
    · by_cases hw : get_window_hours (clamp b.start_hour 0 23) (clamp b.end_hour 0 24) = []
      · simp [he, hse, hw]
      · by_cases hpw : b.power_kw ≤ 0
        · simp [he, hse, hw, hpw]
        · simp only [he, not_true, if_false, hse, hw, hpw]
          exact (List.take_sublist _ _).nodup (get_window_hours_nodup _ _)
  · simp [he]

theorem beforeHoursV1_nil_of_nonpos {b : Asset} (hpw : b.power_kw ≤ 0) :
    beforeHoursV1 b = [] := by
  unfold beforeHoursV1
  by_cases he : b.enabled
  · by_cases hse : clamp b.start_hour 0 23 = clamp b.end_hour 0 24
    · simp [he, hse]
    · by_cases hw : get_window_hours (clamp b.start_hour 0 23) (clamp b.end_hour 0 24) = []
      · simp [he, hse, hw]
      · simp [he, hse, hw, hpw]
  · simp [he]

theorem beforeStepV1_eq (st : List Asset × Load) (b : Asset) :
    beforeStep st b =
      (st.1 ++ [beforePlaceV1 b], addHours st.2 (beforeHoursV1 b) b.power_kw) := by
  unfold beforeStep beforePlaceV1 beforeHoursV1
  by_cases he : b.enabled
  · by_cases hse : clamp b.start_hour 0 23 = clamp b.end_hour 0 24
    · simp [he, hse, addHours]
    · by_cases hw : get_window_hours (clamp b.start_hour 0 23) (clamp b.end_hour 0 24) = []
      · simp [he, hse, hw, addHours]
      · by_cases hpw : b.power_kw ≤ 0
        · simp [he, hse, hw, hpw, addHours]
        · simp [he, hse, hw, hpw]
  · simp [he, addHours]

theorem build_beforeV1_go : ∀ (assets : List Asset) (acc : List Asset × Load),
    assets.foldl beforeStep acc =
      (acc.1 ++ assets.map beforePlaceV1,
       fun h => acc.2 h +
         (assets.map (fun b => if h ∈ beforeHoursV1 b then b.power_kw else 0)).sum) := by
  intro assets
  induction assets with
  | nil =>
      intro acc
      refine Prod.ext (by simp) ?_
      funext h
      simp
  | cons b rest ih =>
      intro acc
      rw [List.foldl_cons, beforeStepV1_eq, ih]
      refine Prod.ext (by simp) ?_
      funext h
      simp only [List.map_cons, List.sum_cons,
        addHours_nodup_apply (beforeHoursV1_nodup b) acc.2 b.power_kw h]
      ring

theorem build_before_eq (assets : List Asset) (base : Load) :
    build_before assets base =
      (assets.map beforePlaceV1,
       fun h => base h +
         (assets.map (fun b => if h ∈ beforeHoursV1 b then b.power_kw else 0)).sum) := by
  unfold build_before
  rw [build_beforeV1_go]
  simp

/-- Shape of every asset leaving the v1.0 before pass: cleared `after_hours`
and, for non-positive power, cleared `before_hours` as well. -/
def Shape (a : Asset) : Prop :=
  a.after_hours = [] ∧ (a.power_kw ≤ 0 → a.before_hours = [])

theorem beforePlaceV1_shape (b : Asset) : Shape (beforePlaceV1 b) :=
  ⟨rfl, fun hpw => beforeHoursV1_nil_of_nonpos hpw⟩

theorem build_after_inputs_shape (assets : List Asset) (base : Load) :
    ∀ a ∈ ((build_before assets base).1.filter (fun a => a.enabled)).mergeSort
        (fun x y => decide (y.power_kw ≤ x.power_kw)), Shape a := by
  intro a ha
  have h1 := (List.mem_filter.1 ((List.mergeSort_perm _ _).mem_iff.1 ha)).1
  rw [build_before_eq] at h1
  simp only [Prod.fst] at h1
  rcases List.mem_map.1 h1 with ⟨b, _, rfl⟩
  exact beforePlaceV1_shape b

/-- With `p ≤ 0` (or non-positive power), the v1.0 after loop only copies
`before_hours` into `after_hours` and leaves the curve and cost untouched. -/
theorem afterStep_p0 {participation : ℚ} (hp : participation ≤ 0) (w : ℚ)
    (st : AfterState) {a : Asset} (hsh : Shape a) :
    afterStep participation w st a =
      { st with assets := st.assets ++ [{ a with after_hours := a.before_hours }] } := by
  unfold afterStep
  by_cases h1 : a.power_kw ≤ 0
  · have h2 : a.before_hours = [] := hsh.2 h1
    have h3 : a.after_hours = [] := hsh.1
    have heta : ({ a with after_hours := a.after_hours } : Asset) = a := rfl
    have ha : ({ a with after_hours := a.before_hours } : Asset) = a := by
      conv_rhs => rw [← heta]
      rw [h2, h3]
    simp only [if_pos h1, ha]
  · simp [if_neg h1, if_pos (Or.inl hp)]

theorem afterFold_p0 {participation : ℚ} (hp : participation ≤ 0) (w : ℚ) :
    ∀ (l : List Asset) (st : AfterState), (∀ a ∈ l, Shape a) →
      (l.foldl (afterStep participation w) st).load = st.load ∧
      ∀ a' ∈ (l.foldl (afterStep participation w) st).assets,
        a' ∈ st.assets ∨ a'.after_hours = a'.before_hours := by
  intro l
  induction l with
  | nil => exact fun st _ => ⟨rfl, fun a' ha' => Or.inl ha'⟩
  | cons a rest ih =>
      intro st hall
      rw [List.foldl_cons, afterStep_p0 hp w st (hall a (List.mem_cons_self a rest))]
      obtain ⟨ihl, ihm⟩ := ih _ (fun b hb => hall b (List.mem_cons_of_mem a hb))
      refine ⟨ihl, ?_⟩
      intro a' ha'
      rcases ihm a' ha' with hin | hgood
      · rcases List.mem_append.1 hin with hin | hnew
        · exact Or.inl hin
        · have heq : a' = { a with after_hours := a.before_hours } := by simpa using hnew
          subst heq
          exact Or.inr rfl
      · exact Or.inr hgood

end V1

/-! ## Claim C2 -/

/-- C2 corrected: in the monolithic engine a flex share `p ≤ 0` short-
circuits — every placed asset's `after_hours` is a copy of its
`before_hours` and the after curve equals the before curve; in the modular
engine (`logic.py`) only an empty `before_hours` (or non-positive power)
short-circuits: such an asset keeps `after_hours = []`, a copy of its empty
`before_hours`. -/
theorem p0_short_circuit_amended (assets : List Asset) (base : Load)
    (participation w : ℚ) :
    (participation ≤ 0 →
      (∀ a' ∈ (V1.recalculate_schedules assets base participation w).placed_assets,
          a'.after_hours = a'.before_hours) ∧
      ∀ h, (V1.recalculate_schedules assets base participation w).after_load h =
        (V1.recalculate_schedules assets base participation w).before_load h) ∧
    (∀ a' ∈ (recalculate assets base participation w).placed_assets,
        a'.before_hours = [] → a'.after_hours = []) := by
  constructor
  · intro hp
    have hshape := V1.build_after_inputs_shape assets base
    have hfold := V1.afterFold_p0 hp w
      (((V1.build_before assets base).1.filter (fun a => a.enabled)).mergeSort
        (fun x y => decide (y.power_kw ≤ x.power_kw)))
      { assets := [], load := (V1.build_before assets base).2, cost := 0 } hshape
    constructor
    · intro a' ha'
      have ha'2 : a' ∈ ((((V1.build_before assets base).1.filter
          (fun a => a.enabled)).mergeSort
            (fun x y => decide (y.power_kw ≤ x.power_kw))).foldl
          (V1.afterStep participation w)
          { assets := [], load := (V1.build_before assets base).2, cost := 0 }).assets := ha'
      rcases hfold.2 a' ha'2 with hin | hgood
      · cases hin
      · exact hgood
    · intro h
      show (_ : AfterState).load h = (V1.build_before assets base).2 h
      rw [hfold.1]
  · -- the modular engine: empty before_hours keeps after_hours empty
    have hfold : ∀ (l : List Asset) (st : AfterState), (∀ a ∈ l, a.after_hours = []) →
        ∀ a' ∈ (l.foldl (afterStep participation w) st).assets,
          a' ∈ st.assets ∨ (a'.before_hours = [] → a'.after_hours = []) := by
      intro l
      induction l with
      | nil => exact fun st _ a' ha' => Or.inl ha'
      | cons a rest ih =>
          intro st hall a' ha'
          rw [List.foldl_cons] at ha'
          rcases ih (afterStep participation w st a)
              (fun b hb => hall b (List.mem_cons_of_mem a hb)) a' ha' with hin | hgood
          · obtain ⟨ch, hch, hchbe⟩ :=
              afterStep_assets_shape participation w st a (hall a (List.mem_cons_self a rest))
            rw [hch] at hin
            rcases List.mem_append.1 hin with hin | hnew
            · exact Or.inl hin
            · have heq : a' = { a with after_hours := ch } := by simpa using hnew
              subst heq
              exact Or.inr (fun hbe => hchbe hbe)
          · exact Or.inr hgood
    intro a' ha'
    have hclear : ∀ a ∈ (((build_before_curve assets base).1.map
        (fun a => { a with after_hours := [] })).filter (fun a => a.enabled)).mergeSort
          (fun x y => decide (y.power_kw ≤ x.power_kw)), a.after_hours = [] := by
      intro a ha
      have h1 := (List.mem_filter.1 ((List.mergeSort_perm _ _).mem_iff.1 ha)).1
      rcases List.mem_map.1 h1 with ⟨b, _, rfl⟩
      rfl
    have ha'2 : a' ∈ (((((build_before_curve assets base).1.map
        (fun a => { a with after_hours := [] })).filter (fun a => a.enabled)).mergeSort
          (fun x y => decide (y.power_kw ≤ x.power_kw))).foldl
        (afterStep participation w)
        { assets := [], load := (build_before_curve assets base).2, cost := 0 }).assets := ha'
    rcases hfold _ _ hclear a' ha'2 with hin | hgood
    · cases hin
    · exact hgood

/-! ## Zero-power catalogs in the v1.0 engine (claim C5) -/

namespace V1

theorem cost_before_flex_go : ∀ (l : List Asset) (c : ℚ),
    (∀ a ∈ l, a.before_hours = []) →
      l.foldl (fun c a =>
        if a.enabled then a.before_hours.foldl (fun s h => s + a.power_kw * price h) c
        else c) c = c := by
  intro l
  induction l with
  | nil => intro c _; rfl
  | cons a rest ih =>
      intro c hall
      rw [List.foldl_cons, hall a (List.mem_cons_self a rest)]
      simp only [List.foldl_nil, ite_self]
      exact ih c (fun b hb => hall b (List.mem_cons_of_mem a hb))

theorem cost_after_flex_go (participation : ℚ) : ∀ (l : List Asset) (c : ℚ),
    (∀ a ∈ l, a.before_hours = [] ∧ a.after_hours = []) →
      l.foldl (fun c a =>
        if a.enabled then
          a.after_hours.foldl (fun s h => s + a.power_kw * participation * price h)
            (a.before_hours.foldl
              (fun s h => s + a.power_kw * (1 - participation) * price h) c)
        else c) c = c := by
  intro l
  induction l with
  | nil => intro c _; rfl
  | cons a rest ih =>
      intro c hall
      rw [List.foldl_cons, (hall a (List.mem_cons_self a rest)).1,
        (hall a (List.mem_cons_self a rest)).2]
      simp only [List.foldl_nil, ite_self]
      exact ih c (fun b hb => hall b (List.mem_cons_of_mem a hb))

theorem afterFold_nonpos (p w : ℚ) : ∀ (l : List Asset) (st : AfterState),
    (∀ a ∈ l, a.power_kw ≤ 0) →
      l.foldl (afterStep p w) st = { st with assets := st.assets ++ l } := by
  intro l
  induction l with
  | nil => intro st _; simp
  | cons a rest ih =>
      intro st hall
      rw [List.foldl_cons,
        show afterStep p w st a = { st with assets := st.assets ++ [a] } by
          unfold afterStep
          simp [hall a (List.mem_cons_self a rest)],
        ih _ (fun b hb => hall b (List.mem_cons_of_mem a hb))]
      simp

/-- A zero-power catalog leaves everything at the base line: both curves
equal `BASE_LOAD` and both flex-cost accumulators are zero, at every grid
point. -/
theorem recalc_zero_power (assets : List Asset) (base : Load) (p w : ℚ)
    (hz : ∀ a ∈ assets, a.power_kw = 0) :
    (recalculate_schedules assets base p w).before_load = base ∧
    (recalculate_schedules assets base p w).after_load = base ∧
    (recalculate_schedules assets base p w).cost_before_cents = 0 ∧
    (recalculate_schedules assets base p w).cost_after_cents = 0 := by
  have hb0 : ∀ b ∈ assets, beforeHoursV1 b = [] := fun b hb =>
    beforeHoursV1_nil_of_nonpos (le_of_eq (hz b hb))
  have hload : (build_before assets base).2 = base := by
    rw [build_before_eq]
    funext h
    simp only []
    rw [List.sum_eq_zero, add_zero]
    intro x hx
    rcases List.mem_map.1 hx with ⟨b, hb, rfl⟩
    simp [hb0 b hb]
  have hall1 : (build_before assets base).1 = assets.map beforePlaceV1 := by
    rw [build_before_eq]
  have hsorted0 : ∀ a ∈ ((build_before assets base).1.filter (fun a => a.enabled)).mergeSort
      (fun x y => decide (y.power_kw ≤ x.power_kw)),
      a.power_kw ≤ 0 ∧ a.before_hours = [] ∧ a.after_hours = [] := by
    intro a ha
    have h1 := (List.mem_filter.1 ((List.mergeSort_perm _ _).mem_iff.1 ha)).1
    rw [hall1] at h1
    rcases List.mem_map.1 h1 with ⟨b, hb, rfl⟩
    refine ⟨le_of_eq (hz b hb), ?_, rfl⟩
    show beforeHoursV1 b = []
    exact hb0 b hb
  have hfold := afterFold_nonpos p w
    (((build_before assets base).1.filter (fun a => a.enabled)).mergeSort
      (fun x y => decide (y.power_kw ≤ x.power_kw)))
    { assets := [], load := (build_before assets base).2, cost := 0 }
    (fun a ha => (hsorted0 a ha).1)
  refine ⟨hload, ?_, ?_, ?_⟩
  · show ((((build_before assets base).1.filter (fun a => a.enabled)).mergeSort
        (fun x y => decide (y.power_kw ≤ x.power_kw))).foldl (afterStep p w)
        { assets := [], load := (build_before assets base).2, cost := 0 }).load = base
    rw [hfold]
    exact hload
  · show cost_before_flex (build_before assets base).1 = 0
    unfold cost_before_flex
    apply cost_before_flex_go
    intro a ha
    rw [hall1] at ha
    rcases List.mem_map.1 ha with ⟨b, hb, rfl⟩
    show beforeHoursV1 b = []
    exact hb0 b hb
  · show cost_after_flex p ((((build_before assets base).1.filter (fun a => a.enabled)).mergeSort
        (fun x y => decide (y.power_kw ≤ x.power_kw))).foldl (afterStep p w)
        { assets := [], load := (build_before assets base).2, cost := 0 }).assets = 0
    rw [hfold]
    unfold cost_after_flex
    apply cost_after_flex_go
    intro a ha
    simp only [List.nil_append] at ha
    exact (hsorted0 a ha).2

theorem ideal_peak_eval_zero (assets : List Asset) (base co2 : Load) (pt : Nat × Nat)
    (hz : ∀ a ∈ assets, a.power_kw = 0) :
    ideal_peak_eval assets base co2 pt = (peak base, 0, 0) := by
  obtain ⟨hb1, _, hc1, _⟩ := recalc_zero_power assets base 0 0 hz
  obtain ⟨hb2, ha2, _, hc2⟩ :=
    recalc_zero_power assets base ((pt.1 : ℚ) / 100) ((pt.2 : ℚ) / 100) hz
  show (peak (recalculate_schedules assets base ((pt.1 : ℚ) / 100) ((pt.2 : ℚ) / 100)).after_load,
      (recalculate_schedules assets base 0 0).cost_before_cents / 100 -
        (recalculate_schedules assets base ((pt.1 : ℚ) / 100) ((pt.2 : ℚ) / 100)).cost_after_cents / 100,
      emissions (recalculate_schedules assets base 0 0).before_load co2 -
        emissions (recalculate_schedules assets base ((pt.1 : ℚ) / 100)
          ((pt.2 : ℚ) / 100)).after_load co2) =
    (peak base, 0, 0)
  rw [hb1, hc1, ha2, hc2]
  norm_num

/-- The first-strictly-better fold never replaces the running best when no
later grid point has a strictly smaller after-peak. -/
theorem ideal_peak_fold_keep (assets : List Asset) (base co2 : Load) :
    ∀ (l : List (Nat × Nat)) (b : (Nat × Nat) × ℚ),
      (∀ pt ∈ l, (ideal_peak_eval assets base co2 pt).1 = b.2) →
        l.foldl (ideal_peak_step assets base co2) (some b) = some b := by
  intro l
  induction l with
  | nil => intro b _; rfl
  | cons pt rest ih =>
      intro b hall
      rw [List.foldl_cons,
        show ideal_peak_step assets base co2 (some b) pt = some b by
          unfold ideal_peak_step
          by_cases hc : (ideal_peak_eval assets base co2 pt).2.1 < 0 ∨
              (ideal_peak_eval assets base co2 pt).2.2 < 0
          · simp [hc]
          · simp only [if_neg hc]
            rw [if_neg]
            rw [hall pt (List.mem_cons_self pt rest)]
            exact lt_irrefl _]
      exact ih b (fun q hq => hall q (List.mem_cons_of_mem pt hq))

theorem ideal_peak_fold_some (assets : List Asset) (base co2 : Load) :
    ∀ (l : List (Nat × Nat)) (b : (Nat × Nat) × ℚ),
      ∃ b', l.foldl (ideal_peak_step assets base co2) (some b) = some b' := by
  intro l
  induction l with
  | nil => intro b; exact ⟨b, rfl⟩
  | cons pt rest ih =>
      intro b
      rw [List.foldl_cons]
      unfold ideal_peak_step
      by_cases hc : (ideal_peak_eval assets base co2 pt).2.1 < 0 ∨
          (ideal_peak_eval assets base co2 pt).2.2 < 0
      · simp only [if_pos hc]
        exact ih b
      · simp only [if_neg hc]
        by_cases hlt : (ideal_peak_eval assets base co2 pt).1 < b.2
        · simp only [if_pos hlt]
          exact ih _
        · simp only [if_neg hlt]
          exact ih b

theorem ideal_peak_fold_none_iff (assets : List Asset) (base co2 : Load) :
    ∀ (l : List (Nat × Nat)),
      l.foldl (ideal_peak_step assets base co2) none = none ↔
        ∀ pt ∈ l, (ideal_peak_eval assets base co2 pt).2.1 < 0 ∨
          (ideal_peak_eval assets base co2 pt).2.2 < 0 := by
  intro l
  induction l with
  | nil => simp
  | cons pt rest ih =>
      rw [List.foldl_cons]
      by_cases hc : (ideal_peak_eval assets base co2 pt).2.1 < 0 ∨
          (ideal_peak_eval assets base co2 pt).2.2 < 0
      · rw [show ideal_peak_step assets base co2 none pt = none by
            unfold ideal_peak_step
            simp [hc], ih]
        constructor
        · intro hrest q hq
          rcases List.mem_cons.1 hq with rfl | hq
          · exact hc
          · exact hrest q hq
        · intro hall q hq
          exact hall q (List.mem_cons_of_mem pt hq)
      · rw [show ideal_peak_step assets base co2 none pt =
            some (pt, (ideal_peak_eval assets base co2 pt).1) by
              unfold ideal_peak_step
              simp [hc]]
        obtain ⟨b', hb'⟩ := ideal_peak_fold_some assets base co2 rest
          (pt, (ideal_peak_eval assets base co2 pt).1)
        rw [hb']
        constructor
        · intro h
          cases h
        · intro hall
          exact absurd (hall pt (List.mem_cons_self pt rest)) hc

end V1

/-! ## Claim C5 -/

/-- C5: the constrained ideal-peak optimizer reports Infeasible (`none`)
exactly when none of the 121 grid points has both savings ≥ 0 (an exact 0
satisfies the constraint), and on an all-zero-power catalog — where both
savings are 0 everywhere — it returns the first grid point `(p=0, w=0)`
with the baseline peak, not Infeasible. -/
theorem ideal_peak_infeasible_iff (assets : List Asset) (base co2 : Load) :
    V1.grid.length = 121 ∧
    (V1.find_ideal_peak_settings assets base co2 = none ↔
      ∀ pt ∈ V1.grid, ¬ V1.ideal_peak_feasible assets base co2 pt) ∧
    ((∀ a ∈ assets, a.power_kw = 0) →
      V1.find_ideal_peak_settings assets base co2 = some ((0, 0), peak base)) := by
  refine ⟨by decide, ?_, ?_⟩
  · unfold V1.find_ideal_peak_settings
    rw [V1.ideal_peak_fold_none_iff]
    constructor
    · intro hall pt hpt
      unfold V1.ideal_peak_feasible
      exact not_not.2 (hall pt hpt)
    · intro hall pt hpt
      exact not_not.1 (hall pt hpt)
  · intro hz
    unfold V1.find_ideal_peak_settings
    rcases hg : V1.grid with _ | ⟨g0, rest⟩
    · exact absurd hg (by decide)
    · have hg0 : g0 = (0, 0) := by
        have h1 : V1.grid.head? = some g0 := by rw [hg]; rfl
        have h2 : V1.grid.head? = some (0, 0) := by decide
        rw [h1] at h2
        exact Option.some.inj h2
      subst hg0
      rw [List.foldl_cons,
        show V1.ideal_peak_step assets base co2 none (0, 0) = some ((0, 0), peak base) by
          unfold V1.ideal_peak_step
          rw [V1.ideal_peak_eval_zero assets base co2 (0, 0) hz]
          norm_num]
      exact V1.ideal_peak_fold_keep assets base co2 rest ((0, 0), peak base)
        (fun pt _ => by rw [V1.ideal_peak_eval_zero assets base co2 pt hz])

/-! ## Claim C6 -/

namespace V1

theorem optimal_step_some (assets : List Asset) (base : Load) (m pt : Nat × Nat) :
    optimal_step assets base (some (m, peak_after_at assets base m)) pt =
      some ((if peak_after_at assets base pt < peak_after_at assets base m then pt else m),
        peak_after_at assets base
          (if peak_after_at assets base pt < peak_after_at assets base m then pt else m)) := by
  unfold optimal_step
  by_cases hlt : peak_after_at assets base pt < peak_after_at assets base m
  · simp [hlt]
  · simp [hlt]

theorem optimal_fold_some (assets : List Asset) (base : Load) :
    ∀ (l : List (Nat × Nat)) (m : Nat × Nat),
      l.foldl (optimal_step assets base) (some (m, peak_after_at assets base m)) =
        some (pyMinGo (peak_after_at assets base) m l,
          peak_after_at assets base (pyMinGo (peak_after_at assets base) m l)) := by
  intro l
  induction l with
  | nil => intro m; rfl
  | cons pt rest ih =>
      intro m
      rw [List.foldl_cons, optimal_step_some, pyMinGo, ih]

theorem find_optimal_eq (assets : List Asset) (base : Load) :
    find_optimal_settings assets base =
      some (pyMin (peak_after_at assets base) grid,
        peak_after_at assets base (pyMin (peak_after_at assets base) grid)) := by
  unfold find_optimal_settings
  rcases hg : grid with _ | ⟨g0, rest⟩
  · exact absurd hg (by decide)
  · rw [List.foldl_cons,
      show optimal_step assets base none g0 = some (g0, peak_after_at assets base g0) from rfl,
      optimal_fold_some assets base rest g0]
    rfl

end V1

/-- C6: the min-peak optimizer scans exactly the 11×11 grid
`{0,10,...,100} × {0,10,...,100}` — flex outer ascending, priority inner
ascending, laid out lexicographically — recomputing at each point, and
returns the first grid point attaining the minimal after-peak: every
earlier point has a strictly larger peak, so a later equal peak never
replaces the winner. -/
theorem min_peak_grid_search (assets : List Asset) (base : Load) :
    V1.grid.length = 121 ∧
    (∀ i, i < 11 → ∀ j, j < 11 →
      V1.grid.getD (11 * i + j) (999, 999) = (10 * i, 10 * j)) ∧
    ∃ (i : Nat) (hi : i < V1.grid.length),
      V1.find_optimal_settings assets base =
        some (V1.grid.get ⟨i, hi⟩,
          V1.peak_after_at assets base (V1.grid.get ⟨i, hi⟩)) ∧
      (∀ pt ∈ V1.grid, V1.peak_after_at assets base (V1.grid.get ⟨i, hi⟩) ≤
        V1.peak_after_at assets base pt) ∧
      (∀ (k : Nat) (hk : k < V1.grid.length), k < i →
        V1.peak_after_at assets base (V1.grid.get ⟨i, hi⟩) <
          V1.peak_after_at assets base (V1.grid.get ⟨k, hk⟩)) := by
  refine ⟨by decide, by decide, ?_⟩
  have hmem : pyMin (V1.peak_after_at assets base) V1.grid ∈ V1.grid :=
    pyMin_mem _ (by decide)
  have hidx : @List.indexOf _ instBEqOfDecidableEq
      (pyMin (V1.peak_after_at assets base) V1.grid) V1.grid <
      V1.grid.length := List.indexOf_lt_length.2 hmem
  refine ⟨@List.indexOf _ instBEqOfDecidableEq
    (pyMin (V1.peak_after_at assets base) V1.grid) V1.grid, hidx, ?_, ?_, ?_⟩
  · rw [List.indexOf_get hidx]
    exact V1.find_optimal_eq assets base
  · rw [List.indexOf_get hidx]
    exact pyMin_le _ V1.grid
  · intro k hk hlt
    rw [List.indexOf_get hidx]
    exact pyMin_first _ V1.grid k hk hlt

/-- C2 counterexample: in the modular engine with `p = 0`, a scored variable
asset is still re-placed — its `after_hours` is the greedy choice `[1]`, not
a copy of its `before_hours = [0]` (and scoring was performed). -/
theorem p0_no_short_circuit_cex :
    ((recalculate [asset_ev1] base0 0 (1/2)).placed_assets.map
        (fun a => (a.before_hours, a.after_hours))) = [([0], [1])] ∧
    ¬ ([1] : List Nat) = [0] := by
  constructor
  · with_unfolding_all rfl
  · decide

/-! ## Claim C3 -/

/-- C3 (code bug in the modular path): `get_window_hours(5,5)` wraps into
the full 24-hour day instead of the empty window that the spec and the
v1.0 validator intend, so the modular form validator's empty-window check
(`len(window) == 0`) can never fire and a `start == end` asset is accepted;
the v1.0 `read_form_values` rejects exactly that input. -/
theorem window_5_5_not_empty :
    get_window_hours 5 5 =
      [5, 6, 7, 8, 9, 10, 11, 12, 13, 14, 15, 16, 17, 18, 19, 20, 21, 22, 23,
        0, 1, 2, 3, 4] ∧
    (get_window_hours 5 5).length = 24 ∧
    read_form_asset_checks 1 5 5 = .ok () ∧
    V1.read_form_values_checks 5 5 =
      .error ("Start and end hour cannot be the same (empty window)") := by
  refine ⟨by decide, by decide, rfl, rfl⟩

/-! ## Claim C8 -/

/-- C8: applying a scenario multiplies each asset's stored base power by the
product of the scenario's factors over the matched category keywords (an
absent keyword contributes 1), applications never compound (a second
application, after any earlier one, gives the same powers), and under
"Winter weekday" a label matching only the "EV" keyword is scaled by
exactly 1.4. -/
theorem apply_scenario_spec (base_power : List ℚ) (assets : List Asset)
    (sc sc0 : Scenario) :
    (∀ (sf : List (String × ℚ)) (app : String),
      scenario_factor sf app =
        (if containsSub ("EV").toList app.toList then scale_get sf ("EV") else 1) *
        (if containsSub ("HVAC").toList app.toList || containsSub ("Heat").toList app.toList
          then scale_get sf ("HVAC") else 1) *
        (if containsSub ("Battery").toList app.toList then scale_get sf ("Battery") else 1) *
        (if containsSub ("Sauna").toList app.toList then scale_get sf ("Sauna") else 1)) ∧
    apply_scenario base_power (apply_scenario base_power assets sc0) sc =
      apply_scenario base_power assets sc ∧
    (∀ (j : Nat), j < base_power.length → j < assets.length →
      (apply_scenario base_power assets sc).getD j default =
        { assets.getD j default with
            power_kw := base_power.getD j 0 *
              scenario_factor sc.scaling_factors (assets.getD j default).appliance }) ∧
    (∀ app : String,
      containsSub ("EV").toList app.toList = true →
      containsSub ("HVAC").toList app.toList = false →
      containsSub ("Heat").toList app.toList = false →
      containsSub ("Battery").toList app.toList = false →
      containsSub ("Sauna").toList app.toList = false →
        scenario_factor winter_scaling_factors app = 14 / 10) := by
  refine ⟨?_, ?_, ?_, ?_⟩
  · intro sf app
    simp only [scenario_factor]
    split_ifs <;> ring
  · show List.zipWith _ base_power (List.zipWith _ base_power assets) = _
    induction base_power generalizing assets with
    | nil => rfl
    | cons b bs ih =>
        match assets with
        | [] => rfl
        | a :: rest =>
            show _ :: _ = _ :: _
            rw [ih rest]
            rfl
  · intro j hj1 hj2
    have hlen : j < (apply_scenario base_power assets sc).length := by
      unfold apply_scenario
      rw [List.length_zipWith]
      omega
    rw [List.getD_eq_getElem _ _ hlen, List.getD_eq_getElem _ _ hj2,
      List.getD_eq_getElem _ _ hj1]
    show (List.zipWith _ base_power assets)[j] = _
    rw [List.getElem_zipWith]
  · intro app hev hhvac hheat hbatt hsauna
    simp only [scenario_factor]
    rw [hev, hhvac, hheat, hbatt, hsauna]
    have hget : scale_get winter_scaling_factors ("EV") = 14 / 10 := by
      with_unfolding_all rfl
    simp [hget]

/-! ## Claim C9 -/

/-- C9: `compute_stats` is total and all three percentages are guarded — a
ratio times 100 only when its denominator is strictly positive and 0
otherwise — while the corresponding absolute quantities are plain
differences unaffected by the guard. -/
theorem compute_stats_guards (bl al : Load) (cb ca : ℚ) (co2 : Load) :
    ((compute_stats bl al cb ca co2).peak_before = peak bl ∧
      (compute_stats bl al cb ca co2).peak_after = peak al ∧
      (compute_stats bl al cb ca co2).peak_reduction = peak bl - peak al ∧
      (0 < peak bl →
        (compute_stats bl al cb ca co2).peak_reduction_pct =
          (peak bl - peak al) / peak bl * 100) ∧
      (peak bl ≤ 0 → (compute_stats bl al cb ca co2).peak_reduction_pct = 0)) ∧
    ((compute_stats bl al cb ca co2).cost_before_eur = cb / 100 ∧
      (compute_stats bl al cb ca co2).cost_after_eur = ca / 100 ∧
      (compute_stats bl al cb ca co2).cost_saving_eur = cb / 100 - ca / 100 ∧
      (0 < cb / 100 →
        (compute_stats bl al cb ca co2).cost_saving_pct =
          (cb / 100 - ca / 100) / (cb / 100) * 100) ∧
      (cb / 100 ≤ 0 → (compute_stats bl al cb ca co2).cost_saving_pct = 0)) ∧
    ((compute_stats bl al cb ca co2).co2_saving_day =
        co2_total bl co2 - co2_total al co2 ∧
      (0 < co2_total bl co2 →
        (compute_stats bl al cb ca co2).co2_saving_pct =
          (co2_total bl co2 - co2_total al co2) / co2_total bl co2 * 100) ∧
      (co2_total bl co2 ≤ 0 → (compute_stats bl al cb ca co2).co2_saving_pct = 0) ∧
      (compute_stats bl al cb ca co2).co2_saving_year =
        (co2_total bl co2 - co2_total al co2) * 365) := by
  have hred : (compute_stats bl al cb ca co2).peak_reduction_pct =
      if peak bl > 0 then (peak bl - peak al) / peak bl * 100 else 0 := rfl
  have hcost : (compute_stats bl al cb ca co2).cost_saving_pct =
      if cb / 100 > 0 then (cb / 100 - ca / 100) / (cb / 100) * 100 else 0 := rfl
  have hco2 : (compute_stats bl al cb ca co2).co2_saving_pct =
      if co2_total bl co2 > 0 then
        (co2_total bl co2 - co2_total al co2) / co2_total bl co2 * 100
      else 0 := rfl
  refine ⟨⟨rfl, rfl, rfl, fun h => ?_, fun h => ?_⟩,
    ⟨rfl, rfl, rfl, fun h => ?_, fun h => ?_⟩,
    ⟨rfl, fun h => ?_, fun h => ?_, rfl⟩⟩
  · rw [hred, if_pos h]
  · rw [hred, if_neg (not_lt.2 h)]
  · rw [hcost, if_pos h]
  · rw [hcost, if_neg (not_lt.2 h)]
  · rw [hco2, if_pos h]
  · rw [hco2, if_neg (not_lt.2 h)]

/-! ## Witnesses -/

/-- Witness for C1 at a concrete one-hour EV asset over a two-hour window. -/
theorem variable_asset_greedy_placement_witness :
    let a : Asset := { asset_ev1 with before_hours := [0] }
    let st : AfterState := { assets := [], load := base0, cost := 0 }
    let window := get_window_hours a.start_hour a.end_hour
    let duration := min a.duration_h window.length
    let score := assetScore (1/2) (addHours st.load a.before_hours (-(a.power_kw * (1/2)))) window
    let chosen := greedyPick score duration window
    (afterStep (1/2) (1/2) st a).assets = st.assets ++ [{ a with after_hours := chosen }] ∧
    chosen.length = duration ∧
    chosen.Nodup ∧
    (∀ h ∈ chosen, h ∈ window) ∧
    (∀ (i : Nat) (hi : i < chosen.length),
      poolAt window chosen i ≠ [] ∧
      chosen.get ⟨i, hi⟩ = pyMin score (poolAt window chosen i) ∧
      chosen.get ⟨i, hi⟩ ∈ poolAt window chosen i ∧
      (∀ h ∈ poolAt window chosen i, score (chosen.get ⟨i, hi⟩) ≤ score h) ∧
      (∀ (k : Nat) (hk : k < (poolAt window chosen i).length),
        score ((poolAt window chosen i).get ⟨k, hk⟩) ≤ score (chosen.get ⟨i, hi⟩) →
          (poolAt window chosen i).indexOf (chosen.get ⟨i, hi⟩) ≤ k)) :=
  variable_asset_greedy_placement (1/2) (1/2)
    { assets := [], load := base0, cost := 0 }
    { asset_ev1 with before_hours := [0] }
    rfl (by norm_num [asset_ev1]) (by decide) (by norm_num) (by decide)

/-- Witness for C10 on a concrete two-asset catalog over the baseline curve. -/
theorem recalc_energy_conserved_witness :
    totalLoad (recalculate [asset_ev1, asset_d10w6]
        generate_baseline_base_load (1/2) (1/2)).after_load =
      totalLoad (recalculate [asset_ev1, asset_d10w6]
        generate_baseline_base_load (1/2) (1/2)).before_load ∧
    ∀ a' ∈ (recalculate [asset_ev1, asset_d10w6]
        generate_baseline_base_load (1/2) (1/2)).placed_assets,
      0 < a'.power_kw → a'.before_hours ≠ [] →
        a'.after_hours.length = a'.before_hours.length :=
  recalc_energy_conserved [asset_ev1, asset_d10w6] generate_baseline_base_load
    (1/2) (1/2) (by decide)

end FlexiCity
